import Mathlib

/-
Verification of the streaming markdown controller of `codex-rs/tui`:
the table-holdback detector (`table_detect.rs`, `streaming/controller.rs`),
the fence-tracking line scanner, the resize remap, and the two stream
controllers.  Source strings are modelled as `List Char` (the sources in
question are ASCII, so Rust byte offsets and char offsets coincide).  The
markdown renderer, the delta collector and the animation queue are external
collaborators of the controller; the renderer is a parameter
(`Renderer`), the collector and queue are modelled from the spec.
-/

namespace CodexStream

/-- A source string, as a list of characters. -/
abbrev Str := List Char

/-- A rendered line.  Styling is irrelevant to the verified claims, so a
rendered line is its plain text. -/
abbrev RLine := List Char

/-- The backtick character. -/
def btick : Char := Char.ofNat 96

/-- Coerce a string literal to `Str`. -/
def str (s : String) : Str := s.data

/-- Drop leading whitespace, mirroring Rust `str::trim_start`. -/
def trimLeftChars (s : Str) : Str := s.dropWhile Char.isWhitespace

/-- Drop trailing whitespace, mirroring Rust `str::trim_end`. -/
def trimRightChars (s : Str) : Str := (s.reverse.dropWhile Char.isWhitespace).reverse

/-- Trim both ends, mirroring Rust `str::trim`. -/
def trimChars (s : Str) : Str := trimRightChars (trimLeftChars s)

/-- Split on a separator character, mirroring Rust `str::split(c)`:
`"" ↦ [""]`, `"a|" ↦ ["a", ""]`. -/
def splitOnChar (sep : Char) : Str → List Str
  | [] => [[]]
  | c :: rest =>
    if c = sep then
      [] :: splitOnChar sep rest
    else
      match splitOnChar sep rest with
      | [] => [[c]]
      | s :: ss => (c :: s) :: ss

/-- Strip one leading occurrence of `c`, mirroring Rust `str::strip_prefix(c)`
fused with `unwrap_or`: returns the input unchanged when it does not start
with `c`. -/
def dropLeadingChar (c : Char) (s : Str) : Str :=
  match s with
  | [] => []
  | x :: xs => if x = c then xs else x :: xs

/-- Strip one trailing occurrence of `c` (Rust `strip_suffix(c)` fused with
`unwrap_or`). -/
def dropTrailingChar (c : Char) (s : Str) : Str :=
  (dropLeadingChar c s.reverse).reverse

/- ## table_detect.rs -/

/-- `parse_table_segments` from `table_detect.rs`: trim the line; `none` if
empty; strip one leading and one trailing pipe; split on `|` and trim each
segment; `some` only when at least two segments result. -/
def parse_table_segments (line : Str) : Option (List Str) :=
  let trimmed := trimChars line
  if trimmed = [] then
    none
  else
    let content := dropTrailingChar '|' (dropLeadingChar '|' trimmed)
    let segments := (splitOnChar '|' content).map trimChars
    if 2 ≤ segments.length then some segments else none

/-- `is_table_header_line` from `table_detect.rs`: parses as a table line and
has at least one non-empty segment. -/
def is_table_header_line (line : Str) : Bool :=
  match parse_table_segments line with
  | none => false
  | some segments => segments.any (fun s => !s.isEmpty)

/-- `is_table_delimiter_segment` from `table_detect.rs`: after trimming,
strip at most one leading and one trailing colon; the remainder must have
length at least 3 and consist solely of dashes. -/
def is_table_delimiter_segment (segment : Str) : Bool :=
  let trimmed := trimChars segment
  if trimmed = [] then
    false
  else
    let without_ends := dropTrailingChar ':' (dropLeadingChar ':' trimmed)
    decide (3 ≤ without_ends.length) && without_ends.all (fun ch => ch = '-')

/-- `is_table_delimiter_line` from `table_detect.rs`: parses as a table line
and every segment is a valid delimiter segment. -/
def is_table_delimiter_line (line : Str) : Bool :=
  match parse_table_segments line with
  | none => false
  | some segments => segments.all is_table_delimiter_segment

/-- `TableScanLine` from `table_detect.rs`. -/
structure TableScanLine where
  text : Str
  enabled : Bool
deriving DecidableEq, Repr

/-- `TablePatternState` from `table_detect.rs`. -/
inductive TablePatternState where
  | none
  | pendingHeader
  | confirmed
deriving DecidableEq, Repr

/-- `is_header_candidate` from `table_detect.rs`: enabled, a header line, and
not itself a delimiter line. -/
def is_header_candidate (line : TableScanLine) : Bool :=
  line.enabled && is_table_header_line line.text && !is_table_delimiter_line line.text

/-- Scan adjacent pairs of a list with a pair predicate, mirroring iteration
over `windows(2)` with an early successful exit. -/
def pairScan (p : α → α → Bool) : List α → Bool
  | a :: b :: rest => p a b || pairScan p (b :: rest)
  | _ => false

/-- The pair test of `scan_table_pattern`: header candidate followed by an
enabled delimiter line. -/
def tdPair (a b : TableScanLine) : Bool :=
  is_header_candidate a && b.enabled && is_table_delimiter_line b.text

/-- Last line whose text is not blank (Rust
`lines.iter().rev().find(|l| !l.text.trim().is_empty())`). -/
def lastNonBlankScan (lines : List TableScanLine) : Option TableScanLine :=
  lines.reverse.find? (fun l => !(trimChars l.text).isEmpty)

/-- `scan_table_pattern` from `table_detect.rs`. -/
def scan_table_pattern (lines : List TableScanLine) : TablePatternState :=
  if pairScan tdPair lines then
    .confirmed
  else
    match lastNonBlankScan lines with
    | some l => if is_header_candidate l then .pendingHeader else .none
    | none => .none

/- ## streaming/controller.rs: fence scanning and table holdback detection -/

/-- `parse_fence_marker` from `controller.rs`: the line must start with a
backtick or tilde; count the leading run of that character; `none` when the
run is shorter than 3. -/
def parse_fence_marker (line : Str) : Option (Char × Nat) :=
  match line with
  | [] => none
  | first :: rest =>
    if first = btick ∨ first = '~' then
      let len := 1 + (rest.takeWhile (fun ch => ch = first)).length
      if len < 3 then none else some (first, len)
    else
      none

/-- `FenceContext` from `controller.rs`. -/
inductive FenceContext where
  | Outside
  | Markdown
  | Other
deriving DecidableEq, Repr

/-- `ParsedLine` from `controller.rs`: a source line with its fence context. -/
structure ParsedLine where
  text : Str
  fence_context : FenceContext
deriving DecidableEq, Repr

/-- `is_markdown_fence` from `controller.rs`: the first whitespace-separated
token after the marker run equals `md` or `markdown`, ASCII-case-insensitive. -/
def is_markdown_fence (trimmed_line : Str) (marker_len : Nat) : Bool :=
  let info := (trimmed_line.drop marker_len).dropWhile Char.isWhitespace
    |>.takeWhile (fun c => !c.isWhitespace)
  let lowered := info.map Char.toLower
  lowered = str "md" || lowered = str "markdown"

/-- The mutable scan state of `parse_lines_with_fence_state`. -/
structure FenceSt where
  in_fence : Bool
  fence_char : Char
  fence_context : FenceContext
deriving DecidableEq, Repr

/-- Initial fence state of `parse_lines_with_fence_state`. -/
def FenceSt.init : FenceSt := ⟨false, Char.ofNat 0, .Other⟩

/-- The per-line state update of `parse_lines_with_fence_state`: opening a
fence records its marker and whether its info string is markdown; a line with
a run of at least 3 of the same marker character closes it. -/
def fenceUpdate (st : FenceSt) (raw_line : Str) : FenceSt :=
  match parse_fence_marker (trimLeftChars raw_line) with
  | none => st
  | some (marker, len) =>
    if !st.in_fence then
      { in_fence := true
        fence_char := marker
        fence_context :=
          if is_markdown_fence (trimLeftChars raw_line) len then .Markdown else .Other }
    else if marker = st.fence_char ∧ 3 ≤ len then
      { st with in_fence := false, fence_context := .Other }
    else
      st

/-- Fence-annotate a list of raw lines, threading `fenceUpdate`. -/
def fenceAnnotate (st : FenceSt) : List Str → List ParsedLine
  | [] => []
  | l :: ls =>
    ⟨l, if st.in_fence then st.fence_context else .Outside⟩ ::
      fenceAnnotate (fenceUpdate st l) ls

/-- `parse_lines_with_fence_state` from `controller.rs`. -/
def parse_lines_with_fence_state (source : Str) : List ParsedLine :=
  fenceAnnotate FenceSt.init (splitOnChar '\n' source)

theorem length_dropWhile_le_self (p : Char → Bool) (l : Str) :
    (l.dropWhile p).length ≤ l.length := by
  induction l with
  | nil => simp
  | cons x xs ih =>
    by_cases h : p x
    · simp only [List.dropWhile_cons, h, ite_true, List.length_cons]
      omega
    · simp [List.dropWhile_cons, h]

/-- The loop of `strip_blockquote_prefix` from `controller.rs`, with an
explicit fuel argument for structural recursion (each iteration consumes the
leading `>`, so fuel equal to the input length always suffices and the
zero-fuel fallback is unreachable). -/
def stripBlockquoteLoop : Nat → Str → Str
  | _, [] => []
  | 0, s => s
  | fuel + 1, c :: rest =>
    if c = '>' then
      stripBlockquoteLoop fuel (trimLeftChars (dropLeadingChar ' ' rest))
    else
      c :: rest

/-- `strip_blockquote_prefix` from `controller.rs`: after trimming leading
whitespace, repeatedly strip a leading `>` followed by at most one space and
further leading whitespace. -/
def strip_blockquote (line : Str) : Str :=
  stripBlockquoteLoop (trimLeftChars line).length (trimLeftChars line)

/-- `table_candidate_text` from `controller.rs`: blockquote-strip and trim the
line; keep it only when it parses as a table line. -/
def table_candidate_text (line : Str) : Option Str :=
  let stripped := trimChars (strip_blockquote line)
  match parse_table_segments stripped with
  | some _ => some stripped
  | none => none

/-- `TableHoldbackState` from `controller.rs`. -/
inductive TableHoldbackState where
  | none
  | pendingHeader
  | confirmed
deriving DecidableEq, Repr

/-- The pair test of `table_holdback_state`: neither line inside an `Other`
fence, both with table-candidate text, the first a header line, the second a
delimiter line. -/
def holdbackPair (header_line delimiter_line : ParsedLine) : Bool :=
  if header_line.fence_context = .Other ∨ delimiter_line.fence_context = .Other then
    false
  else
    match table_candidate_text header_line.text, table_candidate_text delimiter_line.text with
    | some header_text, some delimiter_text =>
      is_table_header_line header_text && is_table_delimiter_line delimiter_text
    | _, _ => false

/-- Last parsed line whose raw text is not blank. -/
def lastNonBlank (lines : List ParsedLine) : Option ParsedLine :=
  lines.reverse.find? (fun l => !(trimChars l.text).isEmpty)

/-- The pending-header test of `table_holdback_state`: the line is outside
any `Other` fence and its candidate text is a header line. -/
def holdbackPendingLine (line : ParsedLine) : Bool :=
  line.fence_context ≠ .Other &&
    (match table_candidate_text line.text with
     | some t => is_table_header_line t
     | none => false)

/-- Whether the last non-blank line passes the pending-header test. -/
def holdbackPendingAny (lines : List ParsedLine) : Bool :=
  match lastNonBlank lines with
  | some line => holdbackPendingLine line
  | none => false

/-- `table_holdback_state` from `controller.rs`. -/
def table_holdback_state (source : Str) : TableHoldbackState :=
  let lines := parse_lines_with_fence_state source
  if pairScan holdbackPair lines then
    .confirmed
  else
    if holdbackPendingAny lines then .pendingHeader else .none

/- ## Renderer abstraction and the resize remap -/

/-- The markdown renderer, an external collaborator of the controller
(`append_markdown_agent` delegates to the markdown-render crate): a pure
function from source and optional width to rendered lines. -/
abbrev Renderer := Str → Option Nat → List RLine

/-- The newline-terminated prefixes of `raw`, in increasing order of length;
the prefixes enumerated by `raw_source.match_indices(newline)` in
`source_bytes_for_rendered_count`. -/
def newlineTerminatedPrefixes (raw : Str) : List Str :=
  (List.range raw.length).filterMap
    (fun i => if raw.get? i = some '\n' then some (raw.take (i + 1)) else none)

/-- The scan loop of `source_bytes_for_rendered_count`: remember the latest
prefix rendering to at most `target` lines, and stop as soon as a prefix
renders to at least `target` lines. -/
def pickBest (render : Renderer) (w : Option Nat) (target : Nat) :
    List Str → Str → Str
  | [], best => best
  | p :: ps, best =>
    let n := (render p w).length
    let best2 := if n ≤ target then p else best
    if target ≤ n then best2 else pickBest render w target ps best2

/-- `source_bytes_for_rendered_count` from `controller.rs`, returning the
chosen newline-terminated prefix itself (Rust returns its byte offset and
then slices; over ASCII sources the byte count is the character count). -/
def source_prefix_for_rendered_count (render : Renderer) (raw : Str)
    (w : Option Nat) (target : Nat) : Str :=
  if target = 0 then [] else pickBest render w target (newlineTerminatedPrefixes raw) []

/-- The offset returned by `source_bytes_for_rendered_count` from
`controller.rs` (length of the chosen prefix). -/
def source_bytes_for_rendered_count (render : Renderer) (raw : Str)
    (w : Option Nat) (target : Nat) : Nat :=
  (source_prefix_for_rendered_count render raw w target).length

/- ## External collaborators (collector, animation queue), modelled from the spec -/

/-- Modelled from the spec: the Delta Collector (`streaming` module internals
are not part of the provided sources).  It buffers incoming text; committing
returns the newline-complete prefix not yet returned. -/
structure DeltaCollector where
  buffer : Str
deriving DecidableEq, Repr

/-- Modelled from the spec: `push_delta(text)` appends to the buffer. -/
def DeltaCollector.push_delta (c : DeltaCollector) (d : Str) : DeltaCollector :=
  ⟨c.buffer ++ d⟩

/-- Split a buffer after its last newline: the first component is the
newline-complete prefix, the second the incomplete remainder. -/
def splitAtLastNewline (b : Str) : Str × Str :=
  let rest := (b.reverse.takeWhile (fun c => c ≠ '\n')).reverse
  (b.take (b.length - rest.length), rest)

/-- Modelled from the spec: `commit_complete_source()` returns the
previously-unreturned newline-complete prefix, or `none` when the buffer
holds no newline. -/
def DeltaCollector.commit_complete_source (c : DeltaCollector) :
    Option Str × DeltaCollector :=
  if c.buffer.contains '\n' then
    let (chunk, rest) := splitAtLastNewline c.buffer
    (some chunk, ⟨rest⟩)
  else
    (none, c)

/-- Modelled from the spec: `finalize_and_drain_source()` returns and clears
all remaining buffered text regardless of newline completion. -/
def DeltaCollector.finalize_and_drain_source (c : DeltaCollector) :
    Str × DeltaCollector :=
  (c.buffer, ⟨[]⟩)

/-- Modelled from the spec: the Animation Queue (`StreamState`), which paces
reveal of stable lines, plus the collector it owns.  Timing-related queries
(`oldest_queued_age`) are irrelevant to the claims and omitted. -/
structure StreamState where
  collector : DeltaCollector
  queue : List RLine
  has_seen_delta : Bool
deriving DecidableEq, Repr

/-- Modelled from the spec: `StreamState::new(width)` (the width is consumed
by collector internals the model does not need). -/
def StreamState.new (_w : Option Nat) : StreamState :=
  ⟨⟨[]⟩, [], false⟩

/-- Modelled from the spec: `enqueue` appends lines to the queue. -/
def StreamState.enqueue (st : StreamState) (lines : List RLine) : StreamState :=
  { st with queue := st.queue ++ lines }

/-- Modelled from the spec: `clear_queue` empties the queue. -/
def StreamState.clear_queue (st : StreamState) : StreamState :=
  { st with queue := [] }

/-- Modelled from the spec: `clear` is a full reset. -/
def StreamState.clear (_st : StreamState) : StreamState :=
  ⟨⟨[]⟩, [], false⟩

/-- Modelled from the spec: `step` pops one reveal unit (one line). -/
def StreamState.step (st : StreamState) : List RLine × StreamState :=
  (st.queue.take 1, { st with queue := st.queue.drop 1 })

/-- Modelled from the spec: `drain_n(n)` pops up to `n` lines. -/
def StreamState.drain_n (st : StreamState) (n : Nat) : List RLine × StreamState :=
  (st.queue.take n, { st with queue := st.queue.drop n })

/-- Modelled from the spec: `queued_len`. -/
def StreamState.queued_len (st : StreamState) : Nat :=
  st.queue.length

/-- Modelled from the spec: `is_idle` holds when nothing is queued. -/
def StreamState.is_idle (st : StreamState) : Bool :=
  st.queue.isEmpty

/- ## StreamController -/

/-- An emitted `AgentMessageCell`: its lines, and whether it is the first
cell of the message (drives the leading header marker). -/
structure AgentMessageCell where
  lines : List RLine
  first : Bool
deriving DecidableEq, Repr

/-- Slice `l[a..b]` (Rust slicing; total via take and drop). -/
def sliceList (l : List α) (a b : Nat) : List α :=
  (l.take b).drop a

/-- `StreamController` from `controller.rs`. -/
structure StreamController where
  state : StreamState
  width : Option Nat
  raw_source : Str
  rendered_lines : List RLine
  enqueued_stable_len : Nat
  emitted_stable_len : Nat
  header_emitted : Bool
deriving DecidableEq, Repr

namespace StreamController

/-- `StreamController::new`. -/
def new (width : Option Nat) : StreamController :=
  { state := StreamState.new width
    width := width
    raw_source := []
    rendered_lines := []
    enqueued_stable_len := 0
    emitted_stable_len := 0
    header_emitted := false }

/-- `StreamController::active_tail_budget_lines`: the whole rendered buffer
when a table is pending or confirmed, zero otherwise. -/
def active_tail_budget_lines (self : StreamController) : Nat :=
  match table_holdback_state self.raw_source with
  | .confirmed => self.rendered_lines.length
  | .pendingHeader => self.rendered_lines.length
  | .none => 0

/-- `StreamController::recompute_streaming_render`. -/
def recompute_streaming_render (render : Renderer) (self : StreamController) :
    StreamController :=
  { self with rendered_lines := render self.raw_source self.width }

/-- `StreamController::sync_stable_queue`. -/
def sync_stable_queue (self : StreamController) : StreamController × Bool :=
  let tail_budget := active_tail_budget_lines self
  let target_stable_len :=
    max (self.rendered_lines.length - tail_budget) self.emitted_stable_len
  if target_stable_len < self.enqueued_stable_len then
    let st := self.state.clear_queue
    let st :=
      if self.emitted_stable_len < target_stable_len then
        st.enqueue (sliceList self.rendered_lines self.emitted_stable_len target_stable_len)
      else st
    let self := { self with state := st, enqueued_stable_len := target_stable_len }
    (self, decide (0 < self.state.queued_len))
  else if target_stable_len = self.enqueued_stable_len then
    (self, false)
  else
    let st := self.state.enqueue
      (sliceList self.rendered_lines self.enqueued_stable_len target_stable_len)
    ({ self with state := st, enqueued_stable_len := target_stable_len }, true)

/-- `StreamController::rebuild_stable_queue_from_render`. -/
def rebuild_stable_queue_from_render (self : StreamController) : StreamController :=
  let tail_budget := active_tail_budget_lines self
  let target_stable_len :=
    max (self.rendered_lines.length - tail_budget) self.emitted_stable_len
  let st := self.state.clear_queue
  let st :=
    if self.emitted_stable_len < target_stable_len then
      st.enqueue (sliceList self.rendered_lines self.emitted_stable_len target_stable_len)
    else st
  { self with state := st, enqueued_stable_len := target_stable_len }

/-- `StreamController::push`. -/
def push (render : Renderer) (delta : Str) (self : StreamController) :
    StreamController × Bool :=
  let st := { self.state with has_seen_delta := self.state.has_seen_delta || !delta.isEmpty }
  let st := { st with collector := st.collector.push_delta delta }
  let self := { self with state := st }
  if delta.contains '\n' then
    match self.state.collector.commit_complete_source with
    | (some committed_source, col) =>
      let self :=
        { self with
            state := { self.state with collector := col }
            raw_source := self.raw_source ++ committed_source }
      sync_stable_queue (recompute_streaming_render render self)
    | (none, col) =>
      ({ self with state := { self.state with collector := col } }, false)
  else
    (self, false)

/-- `StreamController::emit`: wrap non-empty lines into a cell, flagging and
then setting the one-shot header. -/
def emit (lines : List RLine) (self : StreamController) :
    Option AgentMessageCell × StreamController :=
  if lines = [] then
    (none, self)
  else
    (some ⟨lines, !self.header_emitted⟩, { self with header_emitted := true })

/-- `StreamController::on_commit_tick`. -/
def on_commit_tick (self : StreamController) :
    StreamController × Option AgentMessageCell × Bool :=
  let stepped := self.state.step
  let self2 := { self with
    state := stepped.2
    emitted_stable_len := self.emitted_stable_len + stepped.1.length }
  let res := emit stepped.1 self2
  (res.2, res.1, res.2.state.is_idle)

/-- `StreamController::on_commit_tick_batch`. -/
def on_commit_tick_batch (max_lines : Nat) (self : StreamController) :
    StreamController × Option AgentMessageCell × Bool :=
  let stepped := self.state.drain_n (max max_lines 1)
  let self2 := { self with
    state := stepped.2
    emitted_stable_len := self.emitted_stable_len + stepped.1.length }
  let res := emit stepped.1 self2
  (res.2, res.1, res.2.state.is_idle)

/-- `StreamController::queued_lines`. -/
def queued_lines (self : StreamController) : Nat :=
  self.state.queued_len

/-- `StreamController::current_tail_lines`. -/
def current_tail_lines (self : StreamController) : List RLine :=
  self.rendered_lines.drop (min self.enqueued_stable_len self.rendered_lines.length)

/-- `StreamController::reset_stream_state`: full reset except the one-shot
header flag. -/
def reset_stream_state (self : StreamController) : StreamController :=
  { self with
      state := self.state.clear
      raw_source := []
      rendered_lines := []
      enqueued_stable_len := 0
      emitted_stable_len := 0 }

/-- `StreamController::finalize`. -/
def finalize (render : Renderer) (self : StreamController) :
    StreamController × Option AgentMessageCell × Option Str :=
  let (remainder_source, col) := self.state.collector.finalize_and_drain_source
  let self := { self with state := { self.state with collector := col } }
  let self :=
    if remainder_source ≠ [] then
      { self with raw_source := self.raw_source ++ remainder_source }
    else self
  if self.raw_source = [] then
    (reset_stream_state self, none, none)
  else
    let source := self.raw_source
    let rendered := render self.raw_source self.width
    let out_lines :=
      if rendered.length ≤ self.emitted_stable_len then []
      else rendered.drop self.emitted_stable_len
    let (out, self) := emit out_lines self
    (reset_stream_state self, out, some source)

/-- `StreamController::set_width`. -/
def set_width (render : Renderer) (width : Option Nat) (self : StreamController) :
    StreamController :=
  if self.width = width then
    self
  else
    let old_width := self.width
    let self := { self with width := width }
    if self.raw_source = [] then
      self
    else
      let self :=
        if 0 < self.emitted_stable_len then
          let emitted_src := source_prefix_for_rendered_count render
            self.raw_source old_width self.emitted_stable_len
          { self with emitted_stable_len := (render emitted_src width).length }
        else self
      rebuild_stable_queue_from_render (recompute_streaming_render render self)

end StreamController

/- ## PlanStreamController -/

/-- The one-time plan banner line (plain text of
`"• ".dim() + "Proposed Plan".bold()`). -/
def planHeaderLine : RLine := str "• Proposed Plan"

/-- The separator below the plan banner (`Line::from(" ")`). -/
def planSepLine : RLine := str " "

/-- A padding line inside the styled plan block (`Line::from(" ")`). -/
def planPadLine : RLine := str " "

/-- Modelled from the spec: `prefix_lines` from `render/line_utils` (not in
the provided sources), here with identical first and rest prefixes as used by
the plan controller: prepend the prefix to every line. -/
def prefixLines (p : Str) (lines : List RLine) : List RLine :=
  lines.map (fun l => p ++ l)

/-- An emitted proposed-plan cell. -/
structure PlanCell where
  lines : List RLine
  is_stream_continuation : Bool
deriving DecidableEq, Repr

/-- `PlanStreamController` from `controller.rs`. -/
structure PlanStreamController where
  state : StreamState
  width : Option Nat
  raw_source : Str
  rendered_lines : List RLine
  enqueued_stable_len : Nat
  emitted_stable_len : Nat
  header_emitted : Bool
  top_padding_emitted : Bool
deriving DecidableEq, Repr

namespace PlanStreamController

/-- `PlanStreamController::new`. -/
def new (width : Option Nat) : PlanStreamController :=
  { state := StreamState.new width
    width := width
    raw_source := []
    rendered_lines := []
    enqueued_stable_len := 0
    emitted_stable_len := 0
    header_emitted := false
    top_padding_emitted := false }

/-- `PlanStreamController::emit`: one-time banner and separator, one-time top
padding, optional bottom padding on the finalize call, and a fixed two-space
indent on the plan body. -/
def emit (lines : List RLine) (include_bottom_padding : Bool)
    (self : PlanStreamController) : Option PlanCell × PlanStreamController :=
  if lines = [] ∧ include_bottom_padding = false then
    (none, self)
  else
    let is_stream_continuation := self.header_emitted
    let out_head := if !self.header_emitted then [planHeaderLine, planSepLine] else []
    let self := { self with header_emitted := true }
    let plan_top := if !self.top_padding_emitted then [planPadLine] else []
    let self := { self with top_padding_emitted := true }
    let plan_lines := plan_top ++ lines ++
      (if include_bottom_padding then [planPadLine] else [])
    let plan_lines := prefixLines (str "  ") plan_lines
    (some ⟨out_head ++ plan_lines, is_stream_continuation⟩, self)

/-- `PlanStreamController::reset_plan_stream_state`. -/
def reset_plan_stream_state (self : PlanStreamController) : PlanStreamController :=
  { self with
      state := self.state.clear
      raw_source := []
      rendered_lines := []
      enqueued_stable_len := 0
      emitted_stable_len := 0 }

/-- `PlanStreamController::finalize`: drain the collector remainder, fully
re-render, and emit everything past the emitted boundary with bottom
padding; unlike `StreamController::finalize` there is no empty-source early
return. -/
def finalize (render : Renderer) (self : PlanStreamController) :
    PlanStreamController × Option PlanCell :=
  let (remainder_source, col) := self.state.collector.finalize_and_drain_source
  let self := { self with state := { self.state with collector := col } }
  let self :=
    if remainder_source ≠ [] then
      { self with raw_source := self.raw_source ++ remainder_source }
    else self
  let rendered := render self.raw_source self.width
  let out_lines :=
    if rendered.length ≤ self.emitted_stable_len then []
    else rendered.drop self.emitted_stable_len
  let (out, self) := emit out_lines true self
  (reset_plan_stream_state self, out)

end PlanStreamController

/- ## Call traces over a StreamController -/

/-- One call of the controller's driving interface. -/
inductive Op where
  | push (delta : Str)
  | tick
  | tickBatch (n : Nat)
  | setWidth (w : Option Nat)
deriving DecidableEq, Repr

/-- Whether an op is a resize. -/
def Op.isSetWidth : Op → Bool
  | .setWidth _ => true
  | _ => false

/-- The lines carried by an optional emitted cell. -/
def cellLines : Option AgentMessageCell → List RLine
  | none => []
  | some c => c.lines

/-- Execute one call, returning the new controller state and the lines
emitted to the transcript by that call. -/
def stepOp (render : Renderer) (op : Op) (s : StreamController) :
    StreamController × List RLine :=
  match op with
  | .push d => ((s.push render d).1, [])
  | .tick =>
    let (s2, cell, _) := s.on_commit_tick
    (s2, cellLines cell)
  | .tickBatch n =>
    let (s2, cell, _) := s.on_commit_tick_batch n
    (s2, cellLines cell)
  | .setWidth w => (s.set_width render w, [])

/-- Run a call sequence, accumulating all emitted lines in call order. -/
def runAcc (render : Renderer) : List Op → StreamController → StreamController × List RLine
  | [], s => (s, [])
  | op :: ops, s =>
    let (s1, out) := stepOp render op s
    let (s2, outs) := runAcc render ops s1
    (s2, out ++ outs)

/-- Concatenation of all pushed deltas of a call sequence, in order. -/
def concatDeltas : List Op → Str
  | [] => []
  | .push d :: ops => d ++ concatDeltas ops
  | _ :: ops => concatDeltas ops

/- ## Concrete renderers used in witnesses and counterexamples -/

/-- A minimal renderer: one rendered line per newline-terminated source
line (the trailing newline-incomplete remainder renders as a line too,
except that a source ending in a newline adds no trailing blank). -/
def lineRenderer : Renderer := fun s _ => (splitOnChar '\n' s).dropLast

/-- Chop a line into width-sized pieces, with fuel for structural recursion
(fuel equal to the line length always suffices). -/
def chunkGo : Nat → Nat → Str → List Str
  | 0, _, l => [l]
  | fuel + 1, w, l =>
    if w = 0 ∨ l.length ≤ w then [l]
    else l.take w :: chunkGo fuel w (l.drop w)

/-- Chop a line into width-sized pieces. -/
def chunkInto (w : Nat) (l : Str) : List Str :=
  chunkGo l.length w l

/-- A wrapping renderer: each newline-terminated source line is wrapped into
width-sized pieces; with no width constraint it stays on one line. -/
def wrapRenderer : Renderer := fun s w =>
  (splitOnChar '\n' s).dropLast.flatMap
    (fun l => match w with | none => [l] | some k => chunkInto k l)

/-- A renderer keeping only the non-empty source lines (used to exhibit a
prefix whose appended blank line does not increase the rendered count). -/
def nonEmptyLineRenderer : Renderer := fun s _ =>
  (splitOnChar '\n' s).filter (fun l => !l.isEmpty)

/- ## Helper notions used by theorem statements -/

/-- The full raw source at finalize time: the accumulated raw source plus the
collector's undrained remainder. -/
def drainedSource (s : StreamController) : Str :=
  s.raw_source ++ s.state.collector.buffer

/-- The stable target computed by `sync_stable_queue` and
`rebuild_stable_queue_from_render`. -/
def stableTarget (s : StreamController) : Nat :=
  max (s.rendered_lines.length - s.active_tail_budget_lines) s.emitted_stable_len

/- ## C6: backward boundary rebuild -/

/-- C6: in `sync_stable_queue` the stable target is
`max(emitted_stable_len, rendered_lines.len() - tail_budget)`, never below
`emitted_stable_len`; when the target is strictly below `enqueued_stable_len`
the animation queue is replaced by exactly
`rendered_lines[emitted_stable_len..target]`, `enqueued_stable_len` becomes
the target, `emitted_stable_len` is untouched, and the call returns true iff
the queue is then non-empty. -/
theorem sync_backward_rebuild (s : StreamController)
    (hlt : stableTarget s < s.enqueued_stable_len) :
    s.emitted_stable_len ≤ stableTarget s ∧
    (s.sync_stable_queue).1.state.queue =
      sliceList s.rendered_lines s.emitted_stable_len (stableTarget s) ∧
    (s.sync_stable_queue).1.enqueued_stable_len = stableTarget s ∧
    (s.sync_stable_queue).1.emitted_stable_len = s.emitted_stable_len ∧
    ((s.sync_stable_queue).2 = true ↔ (s.sync_stable_queue).1.state.queue ≠ []) := by
  have hle : s.emitted_stable_len ≤ stableTarget s := le_max_right _ _
  refine ⟨hle, ?_⟩
  have hstt : max (s.rendered_lines.length - s.active_tail_budget_lines)
      s.emitted_stable_len = stableTarget s := rfl
  unfold StreamController.sync_stable_queue
  simp only [hstt, if_pos hlt]
  rcases Nat.lt_or_ge s.emitted_stable_len (stableTarget s) with hgt | hge
  · simp only [hgt, if_pos]
    refine ⟨?_, trivial, trivial, ?_⟩
    · simp [StreamState.enqueue, StreamState.clear_queue]
    · simp [StreamState.enqueue, StreamState.clear_queue, StreamState.queued_len,
        List.length_pos, decide_eq_true_eq]
  · have heq : stableTarget s = s.emitted_stable_len := le_antisymm hge hle
    have hslice : sliceList s.rendered_lines s.emitted_stable_len s.emitted_stable_len = [] := by
      simp only [sliceList, List.drop_eq_nil_iff]
      exact List.length_take_le _ _
    rw [heq]
    simp only [lt_irrefl, if_neg (lt_irrefl s.emitted_stable_len)]
    refine ⟨?_, ?_, ?_, ?_⟩ <;>
      simp [StreamState.clear_queue, StreamState.queued_len, hslice]

/-- Concrete controller state used to exercise the backward-rebuild branch. -/
def exC6 : StreamController :=
  { state := ⟨⟨[]⟩, [str "stale"], false⟩
    width := none
    raw_source := str "x\n"
    rendered_lines := [str "l1", str "l2", str "l3"]
    enqueued_stable_len := 5
    emitted_stable_len := 1
    header_emitted := false }

/-- Witness for C6: a state whose target (3) retreated below the enqueued
boundary (5) rebuilds the queue to exactly the two lines between the emitted
boundary and the target. -/
theorem sync_backward_rebuild_witness :
    exC6.emitted_stable_len ≤ stableTarget exC6 ∧
    (exC6.sync_stable_queue).1.state.queue =
      sliceList exC6.rendered_lines exC6.emitted_stable_len (stableTarget exC6) ∧
    (exC6.sync_stable_queue).1.enqueued_stable_len = stableTarget exC6 ∧
    (exC6.sync_stable_queue).1.emitted_stable_len = exC6.emitted_stable_len ∧
    ((exC6.sync_stable_queue).2 = true ↔ (exC6.sync_stable_queue).1.state.queue ≠ []) :=
  sync_backward_rebuild exC6 (by decide)

/- ## C7: finalize behavior -/

/-- C7: `finalize` drains the collector remainder into the raw source; when
the result is empty it resets and returns no cell and no source; otherwise it
fully re-renders at the current width, returns one cell holding exactly the
rendered lines from the emitted boundary to the end (none when that slice is
empty) and the accumulated source string; in every case the raw source,
rendered lines, both boundaries and the queue are reset afterwards. -/
theorem finalize_characterization (render : Renderer) (s : StreamController) :
    (s.finalize render).2.2 =
      (if drainedSource s = [] then none else some (drainedSource s)) ∧
    (s.finalize render).2.1 =
      (if drainedSource s = [] then none
       else if (render (drainedSource s) s.width).length ≤ s.emitted_stable_len then none
       else some ⟨(render (drainedSource s) s.width).drop s.emitted_stable_len,
                  !s.header_emitted⟩) ∧
    (s.finalize render).1.raw_source = [] ∧
    (s.finalize render).1.rendered_lines = [] ∧
    (s.finalize render).1.enqueued_stable_len = 0 ∧
    (s.finalize render).1.emitted_stable_len = 0 ∧
    (s.finalize render).1.state.queue = [] ∧
    (s.finalize render).1.width = s.width := by
  unfold StreamController.finalize drainedSource
  simp only [DeltaCollector.finalize_and_drain_source]
  by_cases hb : s.state.collector.buffer = []
  · simp only [hb, ne_eq, not_true_eq_false, if_false, List.append_nil]
    by_cases hr : s.raw_source = []
    · simp [hr, StreamController.reset_stream_state, StreamState.clear]
    · simp only [hr, if_neg hr]
      unfold StreamController.emit
      by_cases hlen : (render s.raw_source s.width).length ≤ s.emitted_stable_len
      · simp [hlen, StreamController.reset_stream_state, StreamState.clear,
          List.drop_eq_nil_iff]
      · have hne : (render s.raw_source s.width).drop s.emitted_stable_len ≠ [] := by
          simp [List.drop_eq_nil_iff]
          omega
        simp [hlen, hne, StreamController.reset_stream_state, StreamState.clear]
  · have hne : s.raw_source ++ s.state.collector.buffer ≠ [] := by
      simp [hb]
    simp only [hb, ne_eq, not_false_eq_true, if_true, hne, if_neg hne]
    unfold StreamController.emit
    by_cases hlen : (render (s.raw_source ++ s.state.collector.buffer) s.width).length ≤
        s.emitted_stable_len
    · simp [hlen, StreamController.reset_stream_state, StreamState.clear,
        List.drop_eq_nil_iff]
    · have hdne : (render (s.raw_source ++ s.state.collector.buffer) s.width).drop
          s.emitted_stable_len ≠ [] := by
        simp [List.drop_eq_nil_iff]
        omega
      simp [hlen, hdne, StreamController.reset_stream_state, StreamState.clear]

/- ## C9: PlanStreamController::finalize always yields a cell -/

/-- C9: `PlanStreamController::finalize` always returns some cell; on a fresh
controller with nothing ever pushed (and a renderer producing no lines for an
empty source) the cell holds exactly the banner, the separator, and the
indented top and bottom padding lines — in contrast to
`StreamController::finalize`, which returns no cell and no source on an empty
source. -/
theorem plan_finalize_always_some (render : Renderer) (w : Option Nat)
    (hempty : render [] w = []) :
    (∀ s : PlanStreamController, ((s.finalize render).2).isSome = true) ∧
    ((PlanStreamController.new w).finalize render).2 =
      some ⟨[planHeaderLine, planSepLine, str "  " ++ planPadLine, str "  " ++ planPadLine],
            false⟩ ∧
    ((StreamController.new w).finalize render).2.1 = none ∧
    ((StreamController.new w).finalize render).2.2 = none := by
  refine ⟨?_, ?_, ?_, ?_⟩
  · intro s
    unfold PlanStreamController.finalize PlanStreamController.emit
    simp only [DeltaCollector.finalize_and_drain_source]
    split <;> split <;> simp_all
  · unfold PlanStreamController.finalize PlanStreamController.emit PlanStreamController.new
    simp [DeltaCollector.finalize_and_drain_source, StreamState.new, hempty, prefixLines]
  · unfold StreamController.finalize StreamController.new
    simp [DeltaCollector.finalize_and_drain_source, StreamState.new]
  · unfold StreamController.finalize StreamController.new
    simp [DeltaCollector.finalize_and_drain_source, StreamState.new]

/-- Witness for C9 at a concrete renderer and width. -/
theorem plan_finalize_always_some_witness :
    ((PlanStreamController.new (some 10)).finalize lineRenderer).2.isSome = true ∧
    ((PlanStreamController.new (some 10)).finalize lineRenderer).2 =
      some ⟨[planHeaderLine, planSepLine, str "  " ++ planPadLine, str "  " ++ planPadLine],
            false⟩ ∧
    ((StreamController.new (some 10)).finalize lineRenderer).2.1 = none ∧
    ((StreamController.new (some 10)).finalize lineRenderer).2.2 = none :=
  have h := plan_finalize_always_some lineRenderer (some 10) (by decide)
  ⟨h.1 _, h.2.1, h.2.2.1, h.2.2.2⟩

/- ## C5: fence closing rule -/

/-- The closing rule as the claim states it: after trimming leading
whitespace the line must start with a run of the same marker character at
least as long as the opening fence, with nothing but whitespace after the
run. -/
def claimCloseRule (openLen : Nat) (marker : Char) (line : Str) : Bool :=
  let t := trimLeftChars line
  let run := (t.takeWhile (fun c => c = marker)).length
  decide (openLen ≤ run) && (t.drop run).all Char.isWhitespace

/-- The closing rule the scanner actually implements: a run of at least 3 of
the same marker character after trimming leading whitespace, regardless of
the opening fence's length and of any trailing content. -/
def actualCloseRule (marker : Char) (line : Str) : Bool :=
  3 ≤ ((trimLeftChars line).takeWhile (fun c => c = marker)).length

/-- Counterexample to C5: a fence opened by four backticks is closed by the
line made of three backticks followed by non-whitespace text — the fourth
line is scanned as `Outside` — although that line violates the claimed
closing rule on both counts (run shorter than the opening fence, trailing
non-whitespace). -/
theorem fence_close_counterexample :
    (parse_lines_with_fence_state (str "````\nx\n``` tail\ny")).map
        (fun l => l.fence_context) =
      [.Outside, .Other, .Other, .Outside] ∧
    claimCloseRule 4 btick (str "``` tail") = false := by
  constructor <;> decide

theorem parse_fence_marker_some (t : Str) (m : Char) (n : Nat)
    (h : parse_fence_marker t = some (m, n)) :
    (m = btick ∨ m = '~') ∧ 3 ≤ n ∧
      n = (t.takeWhile (fun c => c = m)).length ∧ t.head? = some m := by
  cases t with
  | nil => simp [parse_fence_marker] at h
  | cons first rest =>
    simp only [parse_fence_marker] at h
    by_cases hf : first = btick ∨ first = '~'
    · rw [if_pos hf] at h
      by_cases hl : 1 + (rest.takeWhile (fun ch => ch = first)).length < 3
      · rw [if_pos hl] at h
        exact absurd h (by simp)
      · rw [if_neg hl] at h
        have hmn : first = m ∧ 1 + (rest.takeWhile (fun ch => ch = first)).length = n := by
          simpa using h
        obtain ⟨rfl, hn⟩ := hmn
        refine ⟨hf, by omega, ?_, rfl⟩
        have : (List.takeWhile (fun c => decide (c = first)) (first :: rest)).length =
            (rest.takeWhile (fun ch => decide (ch = first))).length + 1 := by
          simp [List.takeWhile_cons]
        omega
    · rw [if_neg hf] at h
      exact absurd h (by simp)

theorem parse_fence_marker_none_run (t : Str) (c : Char)
    (hc : c = btick ∨ c = '~') (h : parse_fence_marker t = none) :
    (t.takeWhile (fun x => x = c)).length < 3 := by
  cases t with
  | nil => simp
  | cons first rest =>
    by_cases hfc : first = c
    · subst hfc
      simp only [parse_fence_marker, if_pos hc] at h
      by_cases hl : 1 + (rest.takeWhile (fun ch => ch = first)).length < 3
      · have : (List.takeWhile (fun x => decide (x = first)) (first :: rest)).length =
            (rest.takeWhile (fun ch => decide (ch = first))).length + 1 := by
          simp [List.takeWhile_cons]
        omega
      · rw [if_neg hl] at h
        exact absurd h (by simp)
    · have : List.takeWhile (fun x => decide (x = c)) (first :: rest) = [] := by
        simp [List.takeWhile_cons, hfc]
      simp [this]

/-- C5 (amended): in the scan state of `parse_lines_with_fence_state`, an
open fence (whose marker is a backtick or tilde) is closed by a line exactly
when its leading-whitespace-trimmed form starts with a run of at least 3 of
the same marker character; the opening run length and any trailing content
are ignored. -/
theorem fence_close_characterization (st : FenceSt) (line : Str)
    (hin : st.in_fence = true)
    (hmk : st.fence_char = btick ∨ st.fence_char = '~') :
    (fenceUpdate st line).in_fence = false ↔ actualCloseRule st.fence_char line = true := by
  unfold actualCloseRule
  cases hpm : parse_fence_marker (trimLeftChars line) with
  | none =>
    have hrun := parse_fence_marker_none_run (trimLeftChars line) st.fence_char hmk hpm
    unfold fenceUpdate
    rw [hpm]
    simp only [hin, decide_eq_true_eq]
    constructor
    · intro h
      exact absurd h (by simp)
    · intro h
      omega
  | some pair =>
    obtain ⟨m, n⟩ := pair
    obtain ⟨hm, h3, hn, hhead⟩ := parse_fence_marker_some _ _ _ hpm
    unfold fenceUpdate
    rw [hpm]
    simp only [hin, Bool.not_true]
    rw [if_neg (by simp)]
    by_cases hfc : m = st.fence_char
    · rw [if_pos ⟨hfc, h3⟩]
      simp only [decide_eq_true_eq, true_iff]
      rw [← hfc, ← hn]
      omega
    · rw [if_neg (fun hand => hfc hand.1)]
      simp only [hin, decide_eq_true_eq]
      have hrun : ((trimLeftChars line).takeWhile (fun x => x = st.fence_char)).length = 0 := by
        cases hts : trimLeftChars line with
        | nil => simp
        | cons a as =>
          rw [hts] at hhead
          have ha : a = m := by simpa using hhead
          subst ha
          simp [List.takeWhile_cons, hfc]
      rw [hrun]
      constructor
      · intro h
        exact absurd h (by simp)
      · intro h
        omega

/-- Witness for the amended C5 closing rule: inside a 4-backtick fence, the
line of three backticks with trailing text does close the fence. -/
theorem fence_close_characterization_witness :
    (fenceUpdate ⟨true, btick, .Other⟩ (str "``` tail")).in_fence = false ↔
      actualCloseRule btick (str "``` tail") = true :=
  fence_close_characterization ⟨true, btick, .Other⟩ (str "``` tail") rfl (Or.inl rfl)

/- ## C4: the table detector algorithm -/

/-- The header-candidate notion exactly as the claim words it: outside any
`Other` fence, parses as a table line (after blockquote stripping), has a
non-empty segment, and is not itself a valid delimiter line. -/
def specHeaderCandidateC4 (l : ParsedLine) : Bool :=
  l.fence_context ≠ .Other &&
    (match table_candidate_text l.text with
     | some t => is_table_header_line t && !is_table_delimiter_line t
     | none => false)

/-- The delimiter-line side of the claim's pair condition, with the same
non-`Other` fence eligibility. -/
def specDelimiterC4 (l : ParsedLine) : Bool :=
  l.fence_context ≠ .Other &&
    (match table_candidate_text l.text with
     | some t => is_table_delimiter_line t
     | none => false)

/-- The claim's pair condition. -/
def specPairC4 (a b : ParsedLine) : Bool :=
  specHeaderCandidateC4 a && specDelimiterC4 b

/-- The verdict function C4 claims `table_holdback_state` computes, written
from the claim's words (its header candidate excludes delimiter lines). -/
def specVerdictC4 (source : Str) : TableHoldbackState :=
  let lines := parse_lines_with_fence_state source
  if pairScan specPairC4 lines then
    .confirmed
  else
    match lastNonBlank lines with
    | some l => if specHeaderCandidateC4 l then .pendingHeader else .none
    | none => .none

/-- Counterexample to C4: on the single line `--- | ---` (a valid delimiter
row with no header above it) the code returns `PendingHeader`, while the
claimed algorithm — whose header candidate must not itself be a delimiter
line — returns `None`. -/
theorem table_holdback_counterexample :
    table_holdback_state (str "--- | ---\n") = .pendingHeader ∧
    specVerdictC4 (str "--- | ---\n") = .none := by
  constructor <;> decide

theorem pairScan_iff (p : α → α → Bool) :
    ∀ ls : List α, pairScan p ls = true ↔
      ∃ i a b, ls[i]? = some a ∧ ls[i + 1]? = some b ∧ p a b = true
  | [] => by
    constructor
    · intro h
      exact absurd h (by simp [pairScan])
    · rintro ⟨i, x, y, hx, _, _⟩
      simp at hx
  | [a] => by
    constructor
    · intro h
      exact absurd h (by simp [pairScan])
    · rintro ⟨i, x, y, hx, hy, _⟩
      have := List.getElem?_eq_some.mp hy
      simp at this
  | a :: b :: rest => by
    rw [show pairScan p (a :: b :: rest) = (p a b || pairScan p (b :: rest)) from rfl]
    rw [Bool.or_eq_true, pairScan_iff p (b :: rest)]
    constructor
    · rintro (h | ⟨i, x, y, hx, hy, hp⟩)
      · exact ⟨0, a, b, by simp, by simp, h⟩
      · exact ⟨i + 1, x, y, by simpa using hx, by simpa using hy, hp⟩
    · rintro ⟨i, x, y, hx, hy, hp⟩
      cases i with
      | zero =>
        obtain rfl : a = x := by simpa using hx
        obtain rfl : b = y := by simpa using hy
        exact Or.inl hp
      | succ j =>
        exact Or.inr ⟨j, x, y, by simpa using hx, by simpa using hy, hp⟩

/-- The amended header-candidate notion (the code's actual one): outside any
`Other` fence, the blockquote-stripped trimmed text parses as a table line
and has at least one non-empty segment — with no exclusion of delimiter
lines. -/
def amendedCandidate (l : ParsedLine) : Prop :=
  l.fence_context ≠ .Other ∧
  ∃ segs, parse_table_segments (trimChars (strip_blockquote l.text)) = some segs ∧
    ∃ sg ∈ segs, sg ≠ ([] : Str)

/-- The delimiter-line condition: outside any `Other` fence, the stripped
text parses as a table line all of whose segments are delimiter segments. -/
def amendedDelimiter (l : ParsedLine) : Prop :=
  l.fence_context ≠ .Other ∧
  ∃ segs, parse_table_segments (trimChars (strip_blockquote l.text)) = some segs ∧
    ∀ sg ∈ segs, is_table_delimiter_segment sg = true

theorem holdbackPair_iff (a b : ParsedLine) :
    holdbackPair a b = true ↔ amendedCandidate a ∧ amendedDelimiter b := by
  unfold holdbackPair amendedCandidate amendedDelimiter table_candidate_text
  cases hpa : parse_table_segments (trimChars (strip_blockquote a.text)) with
  | none =>
    simp only [hpa]
    constructor
    · intro h
      split at h <;> simp_all
    · rintro ⟨⟨_, segs, hsegs, _⟩, _⟩
      simp [hpa] at hsegs
  | some sa =>
    cases hpb : parse_table_segments (trimChars (strip_blockquote b.text)) with
    | none =>
      simp only [hpb]
      constructor
      · intro h
        split at h <;> simp_all
      · rintro ⟨_, ⟨_, segs, hsegs, _⟩⟩
        simp [hpb] at hsegs
    | some sb =>
      simp only [hpa, hpb]
      by_cases hctx : a.fence_context = .Other ∨ b.fence_context = .Other
      · rw [if_pos hctx]
        constructor
        · intro h
          exact absurd h (by simp)
        · rintro ⟨⟨ha, _⟩, ⟨hb, _⟩⟩
          rcases hctx with h | h
          · exact absurd h ha
          · exact absurd h hb
      · rw [if_neg hctx]
        push_neg at hctx
        simp only [is_table_header_line, is_table_delimiter_line, hpa, hpb,
          Bool.and_eq_true, List.any_eq_true, List.all_eq_true, Bool.not_eq_true,
          decide_eq_true_eq]
        constructor
        · rintro ⟨⟨sg, hsg, hne⟩, hall⟩
          refine ⟨⟨hctx.1, sa, rfl, sg, hsg, ?_⟩, hctx.2, sb, rfl, hall⟩
          simpa [List.isEmpty_iff] using hne
        · rintro ⟨⟨_, segs, hsegs, sg, hsg, hne⟩, _, segs2, hsegs2, hall⟩
          obtain rfl : sa = segs := by simpa [hpa] using hsegs
          obtain rfl : sb = segs2 := by simpa [hpb] using hsegs2
          exact ⟨⟨sg, hsg, by simpa [List.isEmpty_iff] using hne⟩, hall⟩

theorem holdbackPendingLine_iff (l : ParsedLine) :
    holdbackPendingLine l = true ↔ amendedCandidate l := by
  unfold holdbackPendingLine amendedCandidate table_candidate_text
  cases hp : parse_table_segments (trimChars (strip_blockquote l.text)) with
  | none =>
    simp only [hp]
    constructor
    · intro h
      simp at h
    · rintro ⟨_, segs, hsegs, _⟩
      simp [hp] at hsegs
  | some segs =>
    simp only [hp, is_table_header_line, Bool.and_eq_true, List.any_eq_true,
      Bool.not_eq_true, decide_eq_true_eq]
    constructor
    · rintro ⟨hctx, sg, hsg, hne⟩
      exact ⟨hctx, segs, rfl, sg, hsg, by simpa [List.isEmpty_iff] using hne⟩
    · rintro ⟨hctx, segs2, hsegs2, sg, hsg, hne⟩
      obtain rfl : segs = segs2 := by simpa [hp] using hsegs2
      exact ⟨hctx, sg, hsg, by simpa [List.isEmpty_iff] using hne⟩

theorem holdbackPendingAny_iff (lines : List ParsedLine) :
    holdbackPendingAny lines = true ↔
      ∃ l, lastNonBlank lines = some l ∧ amendedCandidate l := by
  unfold holdbackPendingAny
  cases h : lastNonBlank lines with
  | none => simp
  | some l => simp [holdbackPendingLine_iff]

/-- C4 (amended): `table_holdback_state` returns `Confirmed` iff some pair of
adjacent lines, both outside `Other` fences, has line `i` parsing as a table
line with a non-empty segment (with no exclusion of delimiter lines — this is
where the original claim fails) and line `i+1` a valid delimiter line; when
no such pair exists it returns `PendingHeader` iff the last non-blank line
passes the same candidate test, and `None` otherwise. -/
theorem table_holdback_characterization (source : Str) :
    (table_holdback_state source = .confirmed ↔
      ∃ i a b, (parse_lines_with_fence_state source)[i]? = some a ∧
        (parse_lines_with_fence_state source)[i + 1]? = some b ∧
        amendedCandidate a ∧ amendedDelimiter b) ∧
    (table_holdback_state source = .pendingHeader ↔
      ¬(∃ i a b, (parse_lines_with_fence_state source)[i]? = some a ∧
          (parse_lines_with_fence_state source)[i + 1]? = some b ∧
          amendedCandidate a ∧ amendedDelimiter b) ∧
      ∃ l, lastNonBlank (parse_lines_with_fence_state source) = some l ∧
        amendedCandidate l) ∧
    (table_holdback_state source = .none ↔
      ¬(∃ i a b, (parse_lines_with_fence_state source)[i]? = some a ∧
          (parse_lines_with_fence_state source)[i + 1]? = some b ∧
          amendedCandidate a ∧ amendedDelimiter b) ∧
      ¬∃ l, lastNonBlank (parse_lines_with_fence_state source) = some l ∧
        amendedCandidate l) := by
  have hpair : pairScan holdbackPair (parse_lines_with_fence_state source) = true ↔
      ∃ i a b, (parse_lines_with_fence_state source)[i]? = some a ∧
        (parse_lines_with_fence_state source)[i + 1]? = some b ∧
        amendedCandidate a ∧ amendedDelimiter b := by
    rw [pairScan_iff]
    constructor
    · rintro ⟨i, a, b, ha, hb, hp⟩
      exact ⟨i, a, b, ha, hb, (holdbackPair_iff a b).mp hp⟩
    · rintro ⟨i, a, b, ha, hb, hp⟩
      exact ⟨i, a, b, ha, hb, (holdbackPair_iff a b).mpr hp⟩
  have hpend := holdbackPendingAny_iff (parse_lines_with_fence_state source)
  unfold table_holdback_state
  by_cases hc : pairScan holdbackPair (parse_lines_with_fence_state source) = true
  · rw [if_pos hc]
    have hex := hpair.mp hc
    exact ⟨iff_of_true rfl hex,
      iff_of_false (by simp) (fun hcon => hcon.1 hex),
      iff_of_false (by simp) (fun hcon => hcon.1 hex)⟩
  · rw [if_neg hc]
    have hnex : ¬∃ i a b, (parse_lines_with_fence_state source)[i]? = some a ∧
        (parse_lines_with_fence_state source)[i + 1]? = some b ∧
        amendedCandidate a ∧ amendedDelimiter b := fun h => hc (hpair.mpr h)
    by_cases hp : holdbackPendingAny (parse_lines_with_fence_state source) = true
    · rw [if_pos hp]
      have hl := hpend.mp hp
      exact ⟨iff_of_false (by simp) hnex,
        iff_of_true rfl ⟨hnex, hl⟩,
        iff_of_false (by simp) (fun hcon => hcon.2 hl)⟩
    · rw [if_neg hp]
      have hnp : ¬∃ l, lastNonBlank (parse_lines_with_fence_state source) = some l ∧
          amendedCandidate l := fun h => hp (hpend.mpr h)
      exact ⟨iff_of_false (by simp) hnex,
        iff_of_false (by simp) (fun hcon => hnp hcon.2),
        iff_of_true rfl ⟨hnex, hnp⟩⟩

/- ## C10: correspondence with scan_table_pattern -/

/-- The correspondence the claim proposes: feed `scan_table_pattern` the
fence-parsed lines, enabled outside `Other` fences, with text
blockquote-stripped and trimmed. -/
def scanLinesOfSource (source : Str) : List TableScanLine :=
  (parse_lines_with_fence_state source).map
    (fun l => ⟨trimChars (strip_blockquote l.text), decide (l.fence_context ≠ .Other)⟩)

/-- Counterexample to C10: on the single delimiter row `--- | ---` the
controller's detector answers `PendingHeader` while the shared scanner —
whose header candidate excludes delimiter lines — answers `None`. -/
theorem detector_correspondence_counterexample :
    table_holdback_state (str "--- | ---\n") = .pendingHeader ∧
    scan_table_pattern (scanLinesOfSource (str "--- | ---\n")) = .none := by
  constructor <;> decide

theorem header_line_parses (t : Str) (h : is_table_header_line t = true) :
    ∃ segs, parse_table_segments t = some segs := by
  cases hp : parse_table_segments t with
  | none =>
    unfold is_table_header_line at h
    rw [hp] at h
    exact absurd h (by simp)
  | some segs => exact ⟨segs, rfl⟩

theorem delimiter_line_parses (t : Str) (h : is_table_delimiter_line t = true) :
    ∃ segs, parse_table_segments t = some segs := by
  cases hp : parse_table_segments t with
  | none =>
    unfold is_table_delimiter_line at h
    rw [hp] at h
    exact absurd h (by simp)
  | some segs => exact ⟨segs, rfl⟩

theorem tdPair_implies_holdbackPair (a b : ParsedLine)
    (h : tdPair ⟨trimChars (strip_blockquote a.text), decide (a.fence_context ≠ .Other)⟩
           ⟨trimChars (strip_blockquote b.text), decide (b.fence_context ≠ .Other)⟩ = true) :
    holdbackPair a b = true := by
  unfold tdPair is_header_candidate at h
  simp only [Bool.and_eq_true, Bool.not_eq_true, decide_eq_true_eq] at h
  obtain ⟨⟨⟨⟨ha, hhead⟩, _⟩, hb⟩, hdel⟩ := h
  obtain ⟨sa, hsa⟩ := header_line_parses _ hhead
  obtain ⟨sb, hsb⟩ := delimiter_line_parses _ hdel
  unfold holdbackPair table_candidate_text
  rw [if_neg (by tauto)]
  simp only [hsa, hsb]
  simp [hhead, hdel]

/-- C10 (amended): the equivalence fails (see the counterexample: the
controller detector accepts delimiter rows as header candidates and judges
blankness on raw text), but the confirmation direction holds: whenever
`scan_table_pattern` over the corresponding scan lines confirms a table,
`table_holdback_state` confirms it too. -/
theorem scan_confirmed_implies_holdback_confirmed (source : Str)
    (h : scan_table_pattern (scanLinesOfSource source) = .confirmed) :
    table_holdback_state source = .confirmed := by
  have hp : pairScan tdPair (scanLinesOfSource source) = true := by
    by_contra hcon
    unfold scan_table_pattern at h
    rw [if_neg hcon] at h
    rcases hl : lastNonBlankScan (scanLinesOfSource source) with _ | l
    · rw [hl] at h
      simp at h
    · rw [hl] at h
      simp only [Option.some.injEq] at h
      split at h <;> simp at h
  rw [pairScan_iff] at hp
  obtain ⟨i, x, y, hx, hy, hpair⟩ := hp
  unfold scanLinesOfSource at hx hy
  rw [List.getElem?_map] at hx hy
  obtain ⟨a, ha, hfa⟩ := Option.map_eq_some'.mp hx
  obtain ⟨b, hb, hfb⟩ := Option.map_eq_some'.mp hy
  rw [← hfa, ← hfb] at hpair
  have hhb : holdbackPair a b = true := tdPair_implies_holdbackPair a b hpair
  unfold table_holdback_state
  rw [if_pos ((pairScan_iff holdbackPair _).mpr ⟨i, a, b, ha, hb, hhb⟩)]

/-- Witness for the amended C10 at a header-plus-delimiter source. -/
theorem scan_confirmed_implies_holdback_confirmed_witness :
    table_holdback_state (str "a | b\n--- | ---\n") = .confirmed :=
  scan_confirmed_implies_holdback_confirmed (str "a | b\n--- | ---\n") (by decide)

/- ## C8: the resize remap (source_bytes_for_rendered_count) -/

/-- The longest newline-terminated prefix whose render fits within `target`
lines — the value the claim says `source_bytes_for_rendered_count` computes
(the prefixes are listed in increasing length, so the last qualifying one is
the longest; empty when none qualifies). -/
def longestPrefixWithin (render : Renderer) (raw : Str) (w : Option Nat)
    (target : Nat) : Str :=
  (((newlineTerminatedPrefixes raw).filter
      (fun p => (render p w).length ≤ target)).getLast?).getD []

/-- Counterexample to C8: with a renderer for which appending a blank line
does not increase the rendered count, the scan stops at the first prefix
reaching the target and misses the longer qualifying prefix: on source
`"a\n\n"` with target 1 the code returns offset 2 while the longest
newline-terminated prefix rendering to at most 1 line has length 3. -/
theorem source_bytes_counterexample :
    source_bytes_for_rendered_count nonEmptyLineRenderer (str "a\n\n") none 1 = 2 ∧
    (longestPrefixWithin nonEmptyLineRenderer (str "a\n\n") none 1).length = 3 := by
  constructor <;> decide

/-- Keep elements up to and including the first one satisfying `p`. -/
def scanUpToIncl (p : α → Bool) : List α → List α
  | [] => []
  | x :: xs => if p x then [x] else x :: scanUpToIncl p xs

theorem getLast?_cons_getD (l : List α) (a b : α) :
    ((a :: l).getLast?).getD b = (l.getLast?).getD a := by
  induction l generalizing a with
  | nil => rfl
  | cons x xs ih =>
    rw [List.getLast?_cons_cons]
    rcases List.exists_mem_of_ne_nil (x :: xs) (by simp) with _
    cases hx : (x :: xs).getLast? with
    | none => simp [List.getLast?_eq_none_iff] at hx
    | some v => simp [hx]

theorem pickBest_eq (render : Renderer) (w : Option Nat) (target : Nat) :
    ∀ (ps : List Str) (best : Str),
      pickBest render w target ps best =
        (((scanUpToIncl (fun p => target ≤ (render p w).length) ps).filter
            (fun p => (render p w).length ≤ target)).getLast?).getD best
  | [], best => rfl
  | p :: ps, best => by
    rw [show pickBest render w target (p :: ps) best =
        (let n := (render p w).length
         let best2 := if n ≤ target then p else best
         if target ≤ n then best2 else pickBest render w target ps best2) from rfl]
    simp only []
    by_cases hge : target ≤ (render p w).length
    · rw [if_pos hge]
      rw [show scanUpToIncl (fun q => target ≤ (render q w).length) (p :: ps) = [p] from by
        simp [scanUpToIncl, hge]]
      by_cases hle : (render p w).length ≤ target
      · simp [hle, List.filter]
      · simp [hle, List.filter]
    · rw [if_neg hge]
      have hle : (render p w).length ≤ target := by omega
      rw [if_pos hle]
      rw [show scanUpToIncl (fun q => target ≤ (render q w).length) (p :: ps) =
          p :: scanUpToIncl (fun q => target ≤ (render q w).length) ps from by
        simp [scanUpToIncl, hge]]
      rw [pickBest_eq render w target ps p]
      rw [show (p :: scanUpToIncl (fun q => target ≤ (render q w).length) ps).filter
            (fun q => (render q w).length ≤ target) =
          p :: (scanUpToIncl (fun q => target ≤ (render q w).length) ps).filter
            (fun q => (render q w).length ≤ target) from by
        simp [List.filter, hle]]
      rw [getLast?_cons_getD]

/-- C8 (amended): `source_bytes_for_rendered_count` returns 0 when the target
is 0; otherwise it returns the byte length of the longest newline-terminated
prefix rendering to at most `target` lines among the prefixes scanned in
increasing order up to and including the first whose render reaches at least
`target` lines (0 when none of the scanned prefixes qualifies).  The original
claim fails because the scan stops at that first reaching prefix. -/
theorem source_bytes_characterization (render : Renderer) (raw : Str)
    (w : Option Nat) (target : Nat) :
    source_prefix_for_rendered_count render raw w target =
      (if target = 0 then []
       else (((scanUpToIncl (fun p => target ≤ (render p w).length)
                (newlineTerminatedPrefixes raw)).filter
                  (fun p => (render p w).length ≤ target)).getLast?).getD []) ∧
    source_bytes_for_rendered_count render raw w target =
      (if target = 0 then []
       else (((scanUpToIncl (fun p => target ≤ (render p w).length)
                (newlineTerminatedPrefixes raw)).filter
                  (fun p => (render p w).length ≤ target)).getLast?).getD []).length := by
  have h : source_prefix_for_rendered_count render raw w target =
      (if target = 0 then []
       else (((scanUpToIncl (fun p => target ≤ (render p w).length)
                (newlineTerminatedPrefixes raw)).filter
                  (fun p => (render p w).length ≤ target)).getLast?).getD []) := by
    unfold source_prefix_for_rendered_count
    by_cases ht : target = 0
    · rw [if_pos ht, if_pos ht]
    · rw [if_neg ht, if_neg ht]
      exact pickBest_eq render w target (newlineTerminatedPrefixes raw) []
  exact ⟨h, by rw [source_bytes_for_rendered_count, h]⟩

/- ## Controller invariants -/

/-- The unconditional boundary invariant: the emitted boundary never exceeds
the enqueued boundary, the queue never holds more than the gap between them,
and an active holdback pins the enqueued boundary to the emitted boundary. -/
def BaseInv (s : StreamController) : Prop :=
  s.emitted_stable_len ≤ s.enqueued_stable_len ∧
  s.state.queue.length ≤ s.enqueued_stable_len - s.emitted_stable_len ∧
  (table_holdback_state s.raw_source ≠ .none →
    s.enqueued_stable_len = s.emitted_stable_len)

theorem sliceList_length_le (l : List α) (a b : Nat) :
    (sliceList l a b).length ≤ b - a := by
  simp only [sliceList, List.length_drop, List.length_take]
  omega

theorem sliceList_same (l : List α) (a : Nat) : sliceList l a a = [] := by
  simp only [sliceList, List.drop_eq_nil_iff]
  exact List.length_take_le _ _

theorem stableTarget_of_holdback (s : StreamController)
    (h : table_holdback_state s.raw_source ≠ .none) :
    stableTarget s = s.emitted_stable_len := by
  unfold stableTarget StreamController.active_tail_budget_lines
  rcases hst : table_holdback_state s.raw_source with _ | _ | _
  · exact absurd hst h
  · simp [Nat.sub_self]
  · simp [Nat.sub_self]

theorem sync_cases (s : StreamController) :
    (s.sync_stable_queue).1.emitted_stable_len = s.emitted_stable_len ∧
    (s.sync_stable_queue).1.raw_source = s.raw_source ∧
    (s.sync_stable_queue).1.rendered_lines = s.rendered_lines ∧
    (s.sync_stable_queue).1.width = s.width ∧
    ((stableTarget s < s.enqueued_stable_len ∧
        (s.sync_stable_queue).1.enqueued_stable_len = stableTarget s ∧
        (s.sync_stable_queue).1.state.queue =
          sliceList s.rendered_lines s.emitted_stable_len (stableTarget s)) ∨
      (stableTarget s = s.enqueued_stable_len ∧ (s.sync_stable_queue).1 = s) ∨
      (s.enqueued_stable_len < stableTarget s ∧
        (s.sync_stable_queue).1.enqueued_stable_len = stableTarget s ∧
        (s.sync_stable_queue).1.state.queue =
          s.state.queue ++
            sliceList s.rendered_lines s.enqueued_stable_len (stableTarget s))) := by
  have hstt : max (s.rendered_lines.length - s.active_tail_budget_lines)
      s.emitted_stable_len = stableTarget s := rfl
  have hle : s.emitted_stable_len ≤ stableTarget s := le_max_right _ _
  unfold StreamController.sync_stable_queue
  simp only [hstt]
  rcases lt_trichotomy (stableTarget s) s.enqueued_stable_len with hlt | heq | hgt
  · rw [if_pos hlt]
    refine ⟨rfl, rfl, rfl, rfl, Or.inl ⟨hlt, rfl, ?_⟩⟩
    rcases Nat.lt_or_ge s.emitted_stable_len (stableTarget s) with hgt2 | hge2
    · simp [hgt2, StreamState.enqueue, StreamState.clear_queue]
    · have heq2 : stableTarget s = s.emitted_stable_len := le_antisymm hge2 hle
      rw [heq2]
      simp [lt_irrefl, StreamState.clear_queue, sliceList_same]
  · rw [if_neg (by omega), if_pos heq]
    exact ⟨rfl, rfl, rfl, rfl, Or.inr (Or.inl ⟨heq, rfl⟩)⟩
  · rw [if_neg (by omega), if_neg (by omega)]
    exact ⟨rfl, rfl, rfl, rfl, Or.inr (Or.inr ⟨hgt, rfl, rfl⟩)⟩

theorem sync_baseInv (s : StreamController)
    (h1 : s.emitted_stable_len ≤ s.enqueued_stable_len)
    (h2 : s.state.queue.length ≤ s.enqueued_stable_len - s.emitted_stable_len) :
    BaseInv (s.sync_stable_queue).1 := by
  obtain ⟨hem, hraw, hren, _, hcases⟩ := sync_cases s
  have hle : s.emitted_stable_len ≤ stableTarget s := le_max_right _ _
  rcases hcases with ⟨hlt, henq, hq⟩ | ⟨heq, hid⟩ | ⟨hgt, henq, hq⟩
  · refine ⟨by omega, ?_, ?_⟩
    · rw [hq, henq, hem]
      exact le_trans (sliceList_length_le _ _ _) (by omega)
    · intro hh
      rw [hraw] at hh
      rw [henq, hem, stableTarget_of_holdback s hh]
  · rw [hid]
    refine ⟨h1, h2, ?_⟩
    intro hh
    rw [← heq, stableTarget_of_holdback s hh]
  · refine ⟨by omega, ?_, ?_⟩
    · rw [hq, henq, hem, List.length_append]
      have := sliceList_length_le s.rendered_lines s.enqueued_stable_len (stableTarget s)
      omega
    · intro hh
      rw [hraw] at hh
      have := stableTarget_of_holdback s hh
      omega

theorem rebuild_baseInv (s : StreamController) :
    BaseInv s.rebuild_stable_queue_from_render ∧
    s.rebuild_stable_queue_from_render.emitted_stable_len = s.emitted_stable_len ∧
    s.rebuild_stable_queue_from_render.raw_source = s.raw_source := by
  have hstt : max (s.rendered_lines.length - s.active_tail_budget_lines)
      s.emitted_stable_len = stableTarget s := rfl
  have hle : s.emitted_stable_len ≤ stableTarget s := le_max_right _ _
  unfold StreamController.rebuild_stable_queue_from_render
  simp only [hstt]
  refine ⟨⟨hle, ?_, ?_⟩, by trivial, by trivial⟩
  · rcases Nat.lt_or_ge s.emitted_stable_len (stableTarget s) with hgt | hge
    · simp only [hgt, if_pos, StreamState.enqueue, StreamState.clear_queue,
        List.nil_append]
      exact sliceList_length_le _ _ _
    · simp [Nat.not_lt.mpr hge, StreamState.clear_queue]
  · intro hh
    exact stableTarget_of_holdback s hh

theorem baseInv_push (render : Renderer) (d : Str) (s : StreamController)
    (h : BaseInv s) : BaseInv (s.push render d).1 := by
  obtain ⟨h1, h2, h3⟩ := h
  unfold StreamController.push
  by_cases hd : d.contains '\n'
  · simp only [hd, if_pos]
    rcases hc : (s.state.collector.push_delta d).commit_complete_source with ⟨o, col⟩
    rcases o with _ | committed
    · simp only [hc]
      exact ⟨h1, h2, h3⟩
    · simp only [hc]
      exact sync_baseInv _ h1 h2
  · simp only [hd, if_neg]
    exact ⟨h1, h2, h3⟩

theorem emit_fields (ls : List RLine) (t : StreamController) :
    (StreamController.emit ls t).2.state = t.state ∧
    (StreamController.emit ls t).2.emitted_stable_len = t.emitted_stable_len ∧
    (StreamController.emit ls t).2.enqueued_stable_len = t.enqueued_stable_len ∧
    (StreamController.emit ls t).2.raw_source = t.raw_source ∧
    (StreamController.emit ls t).2.rendered_lines = t.rendered_lines ∧
    (StreamController.emit ls t).2.width = t.width := by
  unfold StreamController.emit
  split <;> exact ⟨rfl, rfl, rfl, rfl, rfl, rfl⟩

theorem tick_fields (s : StreamController) :
    (s.on_commit_tick).1.state.queue = s.state.queue.drop 1 ∧
    (s.on_commit_tick).1.emitted_stable_len =
      s.emitted_stable_len + (s.state.queue.take 1).length ∧
    (s.on_commit_tick).1.enqueued_stable_len = s.enqueued_stable_len ∧
    (s.on_commit_tick).1.raw_source = s.raw_source ∧
    (s.on_commit_tick).1.rendered_lines = s.rendered_lines ∧
    (s.on_commit_tick).1.width = s.width := by
  have h := emit_fields (s.state.queue.take 1)
    { s with state := { s.state with queue := s.state.queue.drop 1 },
             emitted_stable_len := s.emitted_stable_len + (s.state.queue.take 1).length }
  exact ⟨congrArg StreamState.queue h.1, h.2.1, h.2.2.1, h.2.2.2.1, h.2.2.2.2.1,
    h.2.2.2.2.2⟩

theorem batch_fields (n : Nat) (s : StreamController) :
    (s.on_commit_tick_batch n).1.state.queue = s.state.queue.drop (max n 1) ∧
    (s.on_commit_tick_batch n).1.emitted_stable_len =
      s.emitted_stable_len + (s.state.queue.take (max n 1)).length ∧
    (s.on_commit_tick_batch n).1.enqueued_stable_len = s.enqueued_stable_len ∧
    (s.on_commit_tick_batch n).1.raw_source = s.raw_source ∧
    (s.on_commit_tick_batch n).1.rendered_lines = s.rendered_lines ∧
    (s.on_commit_tick_batch n).1.width = s.width := by
  have h := emit_fields (s.state.queue.take (max n 1))
    { s with state := { s.state with queue := s.state.queue.drop (max n 1) },
             emitted_stable_len :=
               s.emitted_stable_len + (s.state.queue.take (max n 1)).length }
  exact ⟨congrArg StreamState.queue h.1, h.2.1, h.2.2.1, h.2.2.2.1, h.2.2.2.2.1,
    h.2.2.2.2.2⟩

theorem baseInv_tick (s : StreamController) (h : BaseInv s) :
    BaseInv (s.on_commit_tick).1 := by
  obtain ⟨h1, h2, h3⟩ := h
  obtain ⟨hq, hem, henq, hraw, _, _⟩ := tick_fields s
  have htake : (s.state.queue.take 1).length = min 1 s.state.queue.length :=
    List.length_take _ _
  have hdrop : (s.state.queue.drop 1).length = s.state.queue.length - 1 :=
    List.length_drop _ _
  refine ⟨?_, ?_, ?_⟩
  · rw [hem, henq]
    omega
  · rw [hq, hem, henq, hdrop]
    omega
  · rw [hraw, hem, henq]
    intro hh
    have he := h3 hh
    omega

theorem baseInv_batch (n : Nat) (s : StreamController) (h : BaseInv s) :
    BaseInv (s.on_commit_tick_batch n).1 := by
  obtain ⟨h1, h2, h3⟩ := h
  obtain ⟨hq, hem, henq, hraw, _, _⟩ := batch_fields n s
  have htake : (s.state.queue.take (max n 1)).length =
      min (max n 1) s.state.queue.length := List.length_take _ _
  have hdrop : (s.state.queue.drop (max n 1)).length =
      s.state.queue.length - max n 1 := List.length_drop _ _
  refine ⟨?_, ?_, ?_⟩
  · rw [hem, henq]
    omega
  · rw [hq, hem, henq, hdrop]
    omega
  · rw [hraw, hem, henq]
    intro hh
    have he := h3 hh
    omega

theorem baseInv_setWidth (render : Renderer) (w : Option Nat) (s : StreamController)
    (h : BaseInv s) : BaseInv (s.set_width render w) := by
  unfold StreamController.set_width
  by_cases hsame : s.width = w
  · simp only [hsame, if_pos]
    exact h
  · rw [if_neg hsame]
    by_cases hraw : ({ s with width := w } : StreamController).raw_source = []
    · rw [if_pos hraw]
      exact h
    · rw [if_neg hraw]
      exact (rebuild_baseInv _).1

theorem baseInv_new (w : Option Nat) : BaseInv (StreamController.new w) := by
  refine ⟨le_refl _, by simp [StreamController.new, StreamState.new], ?_⟩
  intro hh
  exact absurd (by decide : table_holdback_state ([] : Str) = .none) hh

theorem baseInv_runAcc (render : Renderer) :
    ∀ (ops : List Op) (s : StreamController), BaseInv s → BaseInv (runAcc render ops s).1
  | [], _, h => h
  | op :: ops, s, h => by
    rw [show runAcc render (op :: ops) s =
        (let r1 := stepOp render op s
         let r2 := runAcc render ops r1.1
         (r2.1, r1.2 ++ r2.2)) from rfl]
    simp only []
    apply baseInv_runAcc render ops
    cases op with
    | push d => exact baseInv_push render d s h
    | tick => exact baseInv_tick s h
    | tickBatch n => exact baseInv_batch n s h
    | setWidth w => exact baseInv_setWidth render w s h

/- ## C3: no premature commit -/

/-- C3: after any `push` — whatever the history of pushes, ticks and resizes
before it — if the holdback state of the accumulated raw source is
`PendingHeader` or `Confirmed`, the animation queue holds nothing
(`queued_lines() = 0`) and the enqueued boundary equals the emitted boundary. -/
theorem push_holdback_no_premature (render : Renderer) (w : Option Nat)
    (ops : List Op) (delta : Str)
    (h : table_holdback_state
        (((runAcc render ops (StreamController.new w)).1.push render delta).1.raw_source) ≠
      .none) :
    ((runAcc render ops (StreamController.new w)).1.push render delta).1.queued_lines = 0 ∧
    ((runAcc render ops (StreamController.new w)).1.push render delta).1.enqueued_stable_len =
      ((runAcc render ops (StreamController.new w)).1.push render delta).1.emitted_stable_len := by
  have hb : BaseInv ((runAcc render ops (StreamController.new w)).1.push render delta).1 :=
    baseInv_push render delta _ (baseInv_runAcc render ops _ (baseInv_new w))
  obtain ⟨_, h2, h3⟩ := hb
  have he := h3 h
  rw [he] at h2
  simp only [Nat.sub_self, Nat.le_zero] at h2
  exact ⟨by simpa [StreamController.queued_lines, StreamState.queued_len] using h2, he⟩

/-- Witness for C3: pushing a lone header-looking row leaves the queue empty
with coinciding boundaries. -/
theorem push_holdback_no_premature_witness :
    ((runAcc lineRenderer [] (StreamController.new Option.none)).1.push lineRenderer
        (str "a | b\n")).1.queued_lines = 0 ∧
    ((runAcc lineRenderer [] (StreamController.new Option.none)).1.push lineRenderer
        (str "a | b\n")).1.enqueued_stable_len =
      ((runAcc lineRenderer [] (StreamController.new Option.none)).1.push lineRenderer
        (str "a | b\n")).1.emitted_stable_len :=
  push_holdback_no_premature lineRenderer Option.none [] (str "a | b\n") (by decide)

/-- Witness for the amended C4: on a header row followed by a delimiter row
the characterization produces the confirming adjacent pair. -/
theorem table_holdback_characterization_witness :
    ∃ i a b, (parse_lines_with_fence_state (str "a | b\n--- | ---\n"))[i]? = some a ∧
      (parse_lines_with_fence_state (str "a | b\n--- | ---\n"))[i + 1]? = some b ∧
      amendedCandidate a ∧ amendedDelimiter b :=
  (table_holdback_characterization (str "a | b\n--- | ---\n")).1.mp (by decide)

/- ## C2: boundary invariant and monotonicity -/

/-- The state reached by pushing one wrapping line at width 5 and draining
it: two wrapped lines are emitted. -/
def exC2 : StreamController :=
  (runAcc wrapRenderer [.push (str "aaaaaaaaaa\n"), .tickBatch 9]
    (StreamController.new (some 5))).1

/-- Counterexample to C2: after fully draining a wrapped line at width 5
(`emitted_stable_len = 2`), removing the width constraint remaps the emitted
boundary to the equivalent length under the new layout — which is smaller
(1 < 2), so `emitted_stable_len` is not non-decreasing across `set_width`. -/
theorem emitted_decreases_on_widen_counterexample :
    exC2.emitted_stable_len = 2 ∧
    (stepOp wrapRenderer (Op.setWidth Option.none) exC2).1.emitted_stable_len = 1 ∧
    (stepOp wrapRenderer (Op.setWidth Option.none) exC2).1.emitted_stable_len <
      exC2.emitted_stable_len := by
  refine ⟨by decide, by decide, by decide⟩

/-- The per-call render compatibility check for the boundary invariant: a
committing push must not make the render shorter than the emitted boundary,
and a resize remap must not map the emitted boundary beyond the full render
at the new width.  Both hold for the real renderer, whose rendered line
count is monotone in the source. -/
def c2StepOk (render : Renderer) (s : StreamController) (op : Op) : Bool :=
  match op with
  | .push d =>
    if d.contains '\n' then
      match (s.state.collector.push_delta d).commit_complete_source with
      | (some committed, _) =>
        decide (s.emitted_stable_len ≤
          (render (s.raw_source ++ committed) s.width).length)
      | (none, _) => true
    else true
  | .setWidth w =>
    if s.width = w then true
    else if s.raw_source = [] then true
    else if 0 < s.emitted_stable_len then
      decide ((render (source_prefix_for_rendered_count render s.raw_source s.width
        s.emitted_stable_len) w).length ≤ (render s.raw_source w).length)
    else true
  | _ => true

/-- Conjunction of a per-call check along a run. -/
def traceOk (render : Renderer) (chk : StreamController → Op → Bool) :
    List Op → StreamController → Bool
  | [], _ => true
  | op :: ops, s => chk s op && traceOk render chk ops (stepOp render op s).1

theorem stableTarget_le (s : StreamController)
    (h : s.emitted_stable_len ≤ s.rendered_lines.length) :
    stableTarget s ≤ s.rendered_lines.length :=
  max_le (Nat.sub_le _ _) h

theorem sync_enq_le (s : StreamController)
    (h : s.emitted_stable_len ≤ s.rendered_lines.length) :
    (s.sync_stable_queue).1.enqueued_stable_len ≤
      (s.sync_stable_queue).1.rendered_lines.length := by
  obtain ⟨_, _, hren, _, hcases⟩ := sync_cases s
  rw [hren]
  rcases hcases with ⟨_, henq, _⟩ | ⟨heq, hid⟩ | ⟨_, henq, _⟩
  · rw [henq]
    exact stableTarget_le s h
  · rw [hid, ← heq]
    exact stableTarget_le s h
  · rw [henq]
    exact stableTarget_le s h

theorem rebuild_enq_le (s : StreamController)
    (h : s.emitted_stable_len ≤ s.rendered_lines.length) :
    s.rebuild_stable_queue_from_render.enqueued_stable_len ≤
      s.rebuild_stable_queue_from_render.rendered_lines.length := by
  have hstt : max (s.rendered_lines.length - s.active_tail_budget_lines)
      s.emitted_stable_len = stableTarget s := rfl
  unfold StreamController.rebuild_stable_queue_from_render
  simp only [hstt]
  exact stableTarget_le s h

theorem push_emitted (render : Renderer) (d : Str) (s : StreamController) :
    (s.push render d).1.emitted_stable_len = s.emitted_stable_len := by
  unfold StreamController.push
  by_cases hd : d.contains '\n'
  · simp only [hd, if_pos]
    rcases hc : (s.state.collector.push_delta d).commit_complete_source with ⟨o, col⟩
    rcases o with _ | committed
    · simp only [hc]
    · simp only [hc]
      exact (sync_cases _).1
  · rw [if_neg hd]

theorem enqInv_push (render : Renderer) (d : Str) (s : StreamController)
    (h : s.enqueued_stable_len ≤ s.rendered_lines.length)
    (hok : c2StepOk render s (.push d) = true) :
    (s.push render d).1.enqueued_stable_len ≤
      (s.push render d).1.rendered_lines.length := by
  unfold StreamController.push
  unfold c2StepOk at hok
  by_cases hd : d.contains '\n'
  · simp only [hd, if_pos] at hok ⊢
    rcases hc : (s.state.collector.push_delta d).commit_complete_source with ⟨o, col⟩
    rcases o with _ | committed
    · simp only [hc]
      exact h
    · simp only [hc] at hok ⊢
      simp only [decide_eq_true_eq] at hok
      exact sync_enq_le _ hok
  · simp only [hd, if_neg]
    exact h

theorem enqInv_setWidth (render : Renderer) (w : Option Nat) (s : StreamController)
    (h : s.enqueued_stable_len ≤ s.rendered_lines.length)
    (hok : c2StepOk render s (.setWidth w) = true) :
    (s.set_width render w).enqueued_stable_len ≤
      (s.set_width render w).rendered_lines.length := by
  unfold StreamController.set_width
  simp only [c2StepOk] at hok
  by_cases hsame : s.width = w
  · simp only [hsame, if_pos]
    exact h
  · rw [if_neg hsame]
    rw [if_neg hsame] at hok
    simp only []
    by_cases hraw : s.raw_source = []
    · rw [if_pos hraw]
      exact h
    · rw [if_neg hraw] at hok
      rw [if_neg hraw]
      by_cases hem : 0 < s.emitted_stable_len
      · rw [if_pos hem] at hok ⊢
        simp only [decide_eq_true_eq] at hok
        exact rebuild_enq_le _ hok
      · rw [if_neg hem] at hok ⊢
        apply rebuild_enq_le
        simp only [StreamController.recompute_streaming_render]
        omega


theorem enqInv_runAcc (render : Renderer) :
    ∀ (ops : List Op) (s : StreamController),
      s.enqueued_stable_len ≤ s.rendered_lines.length →
      traceOk render (c2StepOk render) ops s = true →
      (runAcc render ops s).1.enqueued_stable_len ≤
        (runAcc render ops s).1.rendered_lines.length
  | [], _, h, _ => h
  | op :: ops, s, h, hok => by
    rw [show runAcc render (op :: ops) s =
        (let r1 := stepOp render op s
         let r2 := runAcc render ops r1.1
         (r2.1, r1.2 ++ r2.2)) from rfl]
    simp only []
    have hok2 : c2StepOk render s op = true ∧
        traceOk render (c2StepOk render) ops (stepOp render op s).1 = true := by
      simpa [traceOk, Bool.and_eq_true] using hok
    apply enqInv_runAcc render ops _ _ hok2.2
    cases op with
    | push d => exact enqInv_push render d s h hok2.1
    | tick =>
      obtain ⟨_, _, henq, _, hren, _⟩ := tick_fields s
      show (s.on_commit_tick).1.enqueued_stable_len ≤
        (s.on_commit_tick).1.rendered_lines.length
      rw [henq, hren]
      exact h
    | tickBatch n =>
      obtain ⟨_, _, henq, _, hren, _⟩ := batch_fields n s
      show (s.on_commit_tick_batch n).1.enqueued_stable_len ≤
        (s.on_commit_tick_batch n).1.rendered_lines.length
      rw [henq, hren]
      exact h
    | setWidth w => exact enqInv_setWidth render w s h hok2.1

/-- C2 (amended): along any sequence of push, tick, batch-tick and set_width
calls whose per-call render checks hold (the renderer never shrinks the
render below the emitted boundary — true of a renderer with monotone line
counts), the boundary chain 0 <= emitted <= enqueued <= |rendered| holds at
the end of the run (and, the run being arbitrary, after every call); and
`emitted_stable_len` never decreases across any push or tick call.  The
original claim's non-decrease across `set_width` is refuted by
`emitted_decreases_on_widen_counterexample`. -/
theorem boundary_invariant_characterization (render : Renderer) (w : Option Nat)
    (ops : List Op)
    (hok : traceOk render (c2StepOk render) ops (StreamController.new w) = true) :
    ((runAcc render ops (StreamController.new w)).1.emitted_stable_len ≤
        (runAcc render ops (StreamController.new w)).1.enqueued_stable_len ∧
      (runAcc render ops (StreamController.new w)).1.enqueued_stable_len ≤
        (runAcc render ops (StreamController.new w)).1.rendered_lines.length) ∧
    (∀ (s : StreamController) (op : Op), op.isSetWidth = false →
      s.emitted_stable_len ≤ (stepOp render op s).1.emitted_stable_len) := by
  constructor
  · constructor
    · exact (baseInv_runAcc render ops _ (baseInv_new w)).1
    · exact enqInv_runAcc render ops _ (by simp [StreamController.new]) hok
  · intro s op hop
    cases op with
    | push d => rw [show (stepOp render (.push d) s).1 = (s.push render d).1 from rfl,
        push_emitted render d s]
    | tick =>
      rw [show (stepOp render .tick s).1 = (s.on_commit_tick).1 from rfl,
        (tick_fields s).2.1]
      omega
    | tickBatch n =>
      rw [show (stepOp render (.tickBatch n) s).1 = (s.on_commit_tick_batch n).1 from rfl,
        (batch_fields n s).2.1]
      omega
    | setWidth w2 => simp [Op.isSetWidth] at hop

/-- Witness for the amended C2 at a concrete render, width and call trace. -/
theorem boundary_invariant_characterization_witness :
    ((runAcc lineRenderer [.push (str "x\n"), .tick, .setWidth (some 3)]
          (StreamController.new Option.none)).1.emitted_stable_len ≤
        (runAcc lineRenderer [.push (str "x\n"), .tick, .setWidth (some 3)]
          (StreamController.new Option.none)).1.enqueued_stable_len ∧
      (runAcc lineRenderer [.push (str "x\n"), .tick, .setWidth (some 3)]
          (StreamController.new Option.none)).1.enqueued_stable_len ≤
        (runAcc lineRenderer [.push (str "x\n"), .tick, .setWidth (some 3)]
          (StreamController.new Option.none)).1.rendered_lines.length) ∧
    (StreamController.new Option.none).emitted_stable_len ≤
      (stepOp lineRenderer .tick (StreamController.new Option.none)).1.emitted_stable_len :=
  have h := boundary_invariant_characterization lineRenderer Option.none
    [.push (str "x\n"), .tick, .setWidth (some 3)] (by decide)
  ⟨h.1, h.2 (StreamController.new Option.none) .tick rfl⟩

/- ## C1: no loss -/

/-- The per-call render stability check for no-loss: a committing push must
leave the rendered lines below the enqueued boundary unchanged.  This is the
property the holdback policy exists to secure for the real renderer: content
ahead of the stable boundary is never part of an unconfirmed structure. -/
def c1StepOk (render : Renderer) (s : StreamController) (op : Op) : Bool :=
  match op with
  | .push d =>
    if d.contains '\n' then
      match (s.state.collector.push_delta d).commit_complete_source with
      | (some committed, _) =>
        decide ((render (s.raw_source ++ committed) s.width).take s.enqueued_stable_len =
          s.rendered_lines.take s.enqueued_stable_len)
      | (none, _) => true
    else true
  | _ => true

/-- The finalize-time render stability check: the full render of the drained
source agrees with the last streaming render on the emitted prefix. -/
def c1FinalOk (render : Renderer) (s : StreamController) : Bool :=
  decide ((render (s.raw_source ++ s.state.collector.buffer) s.width).take
      s.emitted_stable_len =
    s.rendered_lines.take s.emitted_stable_len)

/-- The no-loss run invariant: the emitted lines (`acc`) followed by the
queue are exactly the stable prefix of the current render. -/
def C1Inv (w : Option Nat) (acc : List RLine) (s : StreamController) : Prop :=
  s.width = w ∧
  s.emitted_stable_len = acc.length ∧
  s.emitted_stable_len ≤ s.enqueued_stable_len ∧
  s.enqueued_stable_len ≤ s.rendered_lines.length ∧
  s.state.queue.length = s.enqueued_stable_len - s.emitted_stable_len ∧
  acc ++ s.state.queue = s.rendered_lines.take s.enqueued_stable_len ∧
  (s.raw_source = [] → s.rendered_lines = [])

theorem c1Inv_new (w : Option Nat) : C1Inv w [] (StreamController.new w) :=
  ⟨rfl, rfl, le_refl _, le_refl _, rfl, rfl, fun _ => rfl⟩

theorem take_append_slice (l : List α) (a b : Nat) (hab : a ≤ b) :
    l.take a ++ sliceList l a b = l.take b := by
  rw [show l.take a = (l.take b).take a from by rw [List.take_take, min_eq_left hab]]
  exact List.take_append_drop a (l.take b)

theorem sliceList_length_eq (l : List α) (a b : Nat) (hb : b ≤ l.length) :
    (sliceList l a b).length = b - a := by
  simp only [sliceList, List.length_drop, List.length_take]
  omega

theorem c1Inv_acc_eq (w : Option Nat) (acc : List RLine) (s : StreamController)
    (hinv : C1Inv w acc s) :
    acc = s.rendered_lines.take s.emitted_stable_len := by
  obtain ⟨_, hem, hle, _, _, hq, _⟩ := hinv
  have h1 : (acc ++ s.state.queue).take acc.length = acc := List.take_left acc _
  rw [hq] at h1
  rw [← hem] at h1
  rw [List.take_take, min_eq_left hle] at h1
  exact h1.symm

theorem sync_c1 (w : Option Nat) (acc : List RLine) (s : StreamController)
    (hinv : C1Inv w acc s) : C1Inv w acc (s.sync_stable_queue).1 := by
  have hacc := c1Inv_acc_eq w acc s hinv
  obtain ⟨hw, hem, hle, hlen, hql, hq, hraw⟩ := hinv
  obtain ⟨sem, sraw, sren, swid, hcases⟩ := sync_cases s
  have hta : s.emitted_stable_len ≤ stableTarget s := le_max_right _ _
  have htb : stableTarget s ≤ s.rendered_lines.length :=
    stableTarget_le s (le_trans hle hlen)
  rcases hcases with ⟨hlt, henq, hqe⟩ | ⟨heq, hid⟩ | ⟨hgt, henq, hqe⟩
  · refine ⟨by rw [swid]; exact hw, by rw [sem]; exact hem, ?_, ?_, ?_, ?_, ?_⟩
    · rw [sem, henq]
      exact hta
    · rw [henq, sren]
      exact htb
    · rw [hqe, henq, sem, sliceList_length_eq _ _ _ htb]
    · rw [hqe, henq, sren, hacc]
      exact take_append_slice _ _ _ hta
    · rw [sraw, sren]
      exact hraw
  · rw [hid]
    exact ⟨hw, hem, hle, hlen, hql, hq, hraw⟩
  · refine ⟨by rw [swid]; exact hw, by rw [sem]; exact hem, ?_, ?_, ?_, ?_, ?_⟩
    · rw [sem, henq]
      exact hta
    · rw [henq, sren]
      exact htb
    · rw [hqe, henq, sem, List.length_append, hql,
        sliceList_length_eq _ _ _ htb]
      omega
    · rw [hqe, henq, sren, ← List.append_assoc, hq]
      exact take_append_slice _ _ _ (le_of_lt hgt)
    · rw [sraw, sren]
      exact hraw

theorem cellLines_emit (ls : List RLine) (t : StreamController) :
    cellLines (StreamController.emit ls t).1 = ls := by
  unfold StreamController.emit
  split
  · rename_i h
    simp [cellLines, h]
  · rfl

theorem c1_push (render : Renderer) (w : Option Nat) (acc : List RLine) (d : Str)
    (s : StreamController) (hinv : C1Inv w acc s)
    (hok : c1StepOk render s (.push d) = true) (hEmpty : render [] w = []) :
    C1Inv w acc (s.push render d).1 := by
  unfold StreamController.push
  simp only [c1StepOk] at hok
  by_cases hd : d.contains '\n'
  · simp only [hd, if_pos] at hok ⊢
    rcases hc : (s.state.collector.push_delta d).commit_complete_source with ⟨o, col⟩
    rcases o with _ | committed
    · simp only [hc]
      exact hinv
    · simp only [hc] at hok ⊢
      simp only [decide_eq_true_eq] at hok
      apply sync_c1
      obtain ⟨hw, hem, hle, hlen, hql, hq, _⟩ := hinv
      have hlen2 : s.enqueued_stable_len ≤
          (render (s.raw_source ++ committed) s.width).length := by
        have h1 : ((render (s.raw_source ++ committed) s.width).take
            s.enqueued_stable_len).length =
            (s.rendered_lines.take s.enqueued_stable_len).length := by rw [hok]
        simp only [List.length_take] at h1
        omega
      refine ⟨hw, hem, hle, hlen2, hql, ?_, ?_⟩
      · show acc ++ s.state.queue =
          (render (s.raw_source ++ committed) s.width).take s.enqueued_stable_len
        rw [hok]
        exact hq
      · intro h2
        have h3 : s.raw_source ++ committed = [] := h2
        show render (s.raw_source ++ committed) s.width = []
        rw [h3, hw]
        exact hEmpty
  · simp only [hd, if_neg] at hok ⊢
    exact hinv

theorem c1_tick (render : Renderer) (w : Option Nat) (acc : List RLine)
    (s : StreamController) (hinv : C1Inv w acc s) :
    C1Inv w (acc ++ (stepOp render .tick s).2) (stepOp render .tick s).1 := by
  obtain ⟨hw, hem, hle, hlen, hql, hq, hraw⟩ := hinv
  obtain ⟨tq, tem, tenq, traw, tren, twid⟩ := tick_fields s
  have hout : (stepOp render Op.tick s).2 = s.state.queue.take 1 :=
    cellLines_emit (s.state.queue.take 1)
      { s with state := { s.state with queue := s.state.queue.drop 1 },
               emitted_stable_len :=
                 s.emitted_stable_len + (s.state.queue.take 1).length }
  rw [hout]
  show C1Inv w (acc ++ s.state.queue.take 1) (s.on_commit_tick).1
  have htk : (s.state.queue.take 1).length = min 1 s.state.queue.length :=
    List.length_take _ _
  have hdp : (s.state.queue.drop 1).length = s.state.queue.length - 1 :=
    List.length_drop _ _
  refine ⟨by rw [twid]; exact hw, ?_, ?_, ?_, ?_, ?_, ?_⟩
  · rw [tem, List.length_append]
    omega
  · rw [tem, tenq]
    omega
  · rw [tenq, tren]
    exact hlen
  · rw [tq, tem, tenq, hdp]
    omega
  · rw [tq, tren, tenq, List.append_assoc, List.take_append_drop]
    exact hq
  · rw [traw, tren]
    exact hraw

theorem c1_batch (render : Renderer) (w : Option Nat) (acc : List RLine) (n : Nat)
    (s : StreamController) (hinv : C1Inv w acc s) :
    C1Inv w (acc ++ (stepOp render (.tickBatch n) s).2) (stepOp render (.tickBatch n) s).1 := by
  obtain ⟨hw, hem, hle, hlen, hql, hq, hraw⟩ := hinv
  obtain ⟨tq, tem, tenq, traw, tren, twid⟩ := batch_fields n s
  have hout : (stepOp render (Op.tickBatch n) s).2 = s.state.queue.take (max n 1) :=
    cellLines_emit (s.state.queue.take (max n 1))
      { s with state := { s.state with queue := s.state.queue.drop (max n 1) },
               emitted_stable_len :=
                 s.emitted_stable_len + (s.state.queue.take (max n 1)).length }
  rw [hout]
  show C1Inv w (acc ++ s.state.queue.take (max n 1)) (s.on_commit_tick_batch n).1
  have htk : (s.state.queue.take (max n 1)).length =
      min (max n 1) s.state.queue.length := List.length_take _ _
  have hdp : (s.state.queue.drop (max n 1)).length =
      s.state.queue.length - max n 1 := List.length_drop _ _
  refine ⟨by rw [twid]; exact hw, ?_, ?_, ?_, ?_, ?_, ?_⟩
  · rw [tem, List.length_append]
    omega
  · rw [tem, tenq]
    omega
  · rw [tenq, tren]
    exact hlen
  · rw [tq, tem, tenq, hdp]
    omega
  · rw [tq, tren, tenq, List.append_assoc, List.take_append_drop]
    exact hq
  · rw [traw, tren]
    exact hraw

theorem c1_run (render : Renderer) (w : Option Nat) (hEmpty : render [] w = []) :
    ∀ (ops : List Op) (acc : List RLine) (s : StreamController),
      (∀ op ∈ ops, op.isSetWidth = false) →
      C1Inv w acc s →
      traceOk render (c1StepOk render) ops s = true →
      C1Inv w (acc ++ (runAcc render ops s).2) (runAcc render ops s).1
  | [], acc, s, _, hinv, _ => by simp only [runAcc, List.append_nil]; exact hinv
  | op :: ops, acc, s, hnr, hinv, hok => by
    rw [show runAcc render (op :: ops) s =
        (let r1 := stepOp render op s
         let r2 := runAcc render ops r1.1
         (r2.1, r1.2 ++ r2.2)) from rfl]
    simp only []
    have hok2 : c1StepOk render s op = true ∧
        traceOk render (c1StepOk render) ops (stepOp render op s).1 = true := by
      simpa [traceOk, Bool.and_eq_true] using hok
    have hnr2 : ∀ o ∈ ops, o.isSetWidth = false := fun o ho => hnr o (by simp [ho])
    have hstep : C1Inv w (acc ++ (stepOp render op s).2) (stepOp render op s).1 := by
      cases op with
      | push d =>
        show C1Inv w (acc ++ []) _
        rw [List.append_nil]
        exact c1_push render w acc d s hinv hok2.1 hEmpty
      | tick => exact c1_tick render w acc s hinv
      | tickBatch n => exact c1_batch render w acc n s hinv
      | setWidth w2 =>
        have := hnr (.setWidth w2) (by simp)
        simp [Op.isSetWidth] at this
    have := c1_run render w hEmpty ops (acc ++ (stepOp render op s).2)
      (stepOp render op s).1 hnr2 hstep hok2.2
    rw [← List.append_assoc]
    exact this

theorem splitAtLastNewline_append (b : Str) :
    (splitAtLastNewline b).1 ++ (splitAtLastNewline b).2 = b := by
  unfold splitAtLastNewline
  simp only []
  set r := (b.reverse.takeWhile (fun c => c ≠ '\n')).reverse with hr
  set d := (b.reverse.dropWhile (fun c => c ≠ '\n')).reverse with hdd
  have hb : d ++ r = b := by
    rw [hdd, hr, ← List.reverse_append, List.takeWhile_append_dropWhile,
      List.reverse_reverse]
  have hlen : b.length - r.length = d.length := by
    rw [← hb, List.length_append]
    omega
  rw [hlen, ← hb, List.take_left]

theorem commit_some_append (c : DeltaCollector) (chunk : Str) (col : DeltaCollector)
    (h : c.commit_complete_source = (some chunk, col)) :
    chunk ++ col.buffer = c.buffer := by
  unfold DeltaCollector.commit_complete_source at h
  split at h
  · have h1 : some (splitAtLastNewline c.buffer).1 = some chunk := congrArg Prod.fst h
    have h2 : (⟨(splitAtLastNewline c.buffer).2⟩ : DeltaCollector) = col :=
      congrArg Prod.snd h
    rw [← Option.some.inj h1, ← h2]
    exact splitAtLastNewline_append c.buffer
  · exact absurd (congrArg Prod.fst h) (by simp)

theorem commit_none_id (c : DeltaCollector) (col : DeltaCollector)
    (h : c.commit_complete_source = (none, col)) : col = c := by
  unfold DeltaCollector.commit_complete_source at h
  split at h
  · exact absurd (congrArg Prod.fst h) (by simp)
  · exact (congrArg Prod.snd h).symm

theorem sync_state_collector (s : StreamController) :
    (s.sync_stable_queue).1.state.collector = s.state.collector := by
  unfold StreamController.sync_stable_queue
  simp only []
  split
  · split <;> rfl
  · split <;> rfl

theorem rebuild_raw_collector (s : StreamController) :
    s.rebuild_stable_queue_from_render.raw_source = s.raw_source ∧
    s.rebuild_stable_queue_from_render.state.collector = s.state.collector := by
  unfold StreamController.rebuild_stable_queue_from_render
  simp only []
  constructor
  · trivial
  · split <;> trivial

theorem tick_collector (s : StreamController) :
    (s.on_commit_tick).1.state.collector = s.state.collector := by
  have h := (emit_fields (s.state.queue.take 1)
    { s with state := { s.state with queue := s.state.queue.drop 1 },
             emitted_stable_len :=
               s.emitted_stable_len + (s.state.queue.take 1).length }).1
  have h2 := congrArg StreamState.collector h
  exact h2

theorem batch_collector (n : Nat) (s : StreamController) :
    (s.on_commit_tick_batch n).1.state.collector = s.state.collector := by
  have h := (emit_fields (s.state.queue.take (max n 1))
    { s with state := { s.state with queue := s.state.queue.drop (max n 1) },
             emitted_stable_len :=
               s.emitted_stable_len + (s.state.queue.take (max n 1)).length }).1
  have h2 := congrArg StreamState.collector h
  exact h2

theorem push_rawbuf (render : Renderer) (d : Str) (s : StreamController) :
    (s.push render d).1.raw_source ++ (s.push render d).1.state.collector.buffer =
      s.raw_source ++ s.state.collector.buffer ++ d := by
  unfold StreamController.push
  by_cases hd : d.contains '\n'
  · simp only [hd, if_pos]
    rcases hc : (s.state.collector.push_delta d).commit_complete_source with ⟨o, col⟩
    rcases o with _ | committed
    · simp only [hc]
      have hcol := commit_none_id _ _ hc
      show s.raw_source ++ col.buffer = _
      rw [hcol]
      show s.raw_source ++ (s.state.collector.buffer ++ d) = _
      rw [List.append_assoc]
    · simp only [hc]
      have happ : committed ++ col.buffer = s.state.collector.buffer ++ d :=
        commit_some_append _ _ _ hc
      have key : ∀ t : StreamController, t.raw_source = s.raw_source ++ committed →
          t.state.collector = col →
          (t.sync_stable_queue).1.raw_source ++
            (t.sync_stable_queue).1.state.collector.buffer =
          s.raw_source ++ s.state.collector.buffer ++ d := by
        intro t ht hcol2
        rw [(sync_cases t).2.1, sync_state_collector t, ht, hcol2, List.append_assoc,
          happ, ← List.append_assoc]
      exact key _ rfl rfl
  · simp only [hd, if_neg]
    show s.raw_source ++ (s.state.collector.buffer ++ d) = _
    rw [List.append_assoc]

theorem setWidth_rawbuf (render : Renderer) (w : Option Nat) (s : StreamController) :
    (s.set_width render w).raw_source = s.raw_source ∧
    (s.set_width render w).state.collector = s.state.collector := by
  unfold StreamController.set_width
  split
  · exact ⟨rfl, rfl⟩
  · simp only []
    split
    · exact ⟨rfl, rfl⟩
    · constructor
      · split <;> exact (rebuild_raw_collector _).1
      · split <;> exact (rebuild_raw_collector _).2

theorem rawbuf_runAcc (render : Renderer) :
    ∀ (ops : List Op) (s : StreamController),
      (runAcc render ops s).1.raw_source ++
        (runAcc render ops s).1.state.collector.buffer =
      s.raw_source ++ s.state.collector.buffer ++ concatDeltas ops
  | [], s => by simp [runAcc, concatDeltas]
  | op :: ops, s => by
    rw [show runAcc render (op :: ops) s =
        (let r1 := stepOp render op s
         let r2 := runAcc render ops r1.1
         (r2.1, r1.2 ++ r2.2)) from rfl]
    simp only []
    rw [rawbuf_runAcc render ops (stepOp render op s).1]
    cases op with
    | push d =>
      rw [show (stepOp render (.push d) s).1 = (s.push render d).1 from rfl,
        push_rawbuf render d s]
      show _ = s.raw_source ++ s.state.collector.buffer ++ (d ++ concatDeltas ops)
      rw [List.append_assoc (s.raw_source ++ s.state.collector.buffer)]
    | tick =>
      rw [show (stepOp render Op.tick s).1 = (s.on_commit_tick).1 from rfl,
        (tick_fields s).2.2.2.1, tick_collector s]
      rfl
    | tickBatch n =>
      rw [show (stepOp render (.tickBatch n) s).1 = (s.on_commit_tick_batch n).1 from rfl,
        (batch_fields n s).2.2.2.1, batch_collector n s]
      rfl
    | setWidth w2 =>
      rw [show (stepOp render (.setWidth w2) s).1 = s.set_width render w2 from rfl,
        (setWidth_rawbuf render w2 s).1, (setWidth_rawbuf render w2 s).2]
      rfl

theorem c1_final (render : Renderer) (w : Option Nat) (acc : List RLine)
    (s : StreamController) (hinv : C1Inv w acc s)
    (hfin : c1FinalOk render s = true) (hEmpty : render [] w = []) :
    acc ++ cellLines (s.finalize render).2.1 =
      render (s.raw_source ++ s.state.collector.buffer) w := by
  have hacc := c1Inv_acc_eq w acc s hinv
  obtain ⟨hw, hem, hle, hlen, hql, hq, hraw⟩ := hinv
  unfold c1FinalOk at hfin
  simp only [decide_eq_true_eq] at hfin
  rw [← hw]
  unfold StreamController.finalize
  simp only [DeltaCollector.finalize_and_drain_source]
  by_cases hb : s.state.collector.buffer = []
  · rw [hb, List.append_nil] at hfin ⊢
    simp only [hb, ne_eq, not_true_eq_false, if_false]
    by_cases hr : s.raw_source = []
    · simp only [hr, if_pos]
      rw [hacc, hraw hr]
      simp only [List.take_nil, List.nil_append, cellLines, hr, hw]
      exact hEmpty.symm
    · simp only [hr, if_neg, if_false]
      rw [cellLines_emit]
      have haccf : acc = (render s.raw_source s.width).take s.emitted_stable_len := by
        rw [hacc, ← hfin]
      have hmin : s.emitted_stable_len ≤ (render s.raw_source s.width).length := by
        have h1 : acc.length =
            ((render s.raw_source s.width).take s.emitted_stable_len).length := by
          rw [← haccf]
        simp only [List.length_take] at h1
        omega
      by_cases hcond : (render s.raw_source s.width).length ≤ s.emitted_stable_len
      · rw [if_pos hcond, List.append_nil, haccf]
        have : s.emitted_stable_len = (render s.raw_source s.width).length := by omega
        rw [this, List.take_length]
      · rw [if_neg hcond, haccf, List.take_append_drop]
  · have hne : s.raw_source ++ s.state.collector.buffer ≠ [] := by simp [hb]
    simp only [hb, ne_eq, not_false_eq_true, if_true, hne, if_neg hne, if_false]
    rw [cellLines_emit]
    have haccf : acc = (render (s.raw_source ++ s.state.collector.buffer)
        s.width).take s.emitted_stable_len := by
      rw [hacc, ← hfin]
    have hmin : s.emitted_stable_len ≤
        (render (s.raw_source ++ s.state.collector.buffer) s.width).length := by
      have h1 : acc.length = ((render (s.raw_source ++ s.state.collector.buffer)
          s.width).take s.emitted_stable_len).length := by
        rw [← haccf]
      simp only [List.length_take] at h1
      omega
    by_cases hcond : (render (s.raw_source ++ s.state.collector.buffer) s.width).length ≤
        s.emitted_stable_len
    · rw [if_pos hcond, List.append_nil, haccf]
      have : s.emitted_stable_len =
          (render (s.raw_source ++ s.state.collector.buffer) s.width).length := by omega
      rw [this, List.take_length]
    · rw [if_neg hcond, haccf, List.take_append_drop]

/-- C1: for every sequence of pushed deltas interleaved arbitrarily with
single and batched commit ticks and ending with finalize, provided each
committing render leaves the already-enqueued stable prefix unchanged (the
property the table holdback secures for the markdown renderer) and an empty
source renders to no lines, the concatenation in call order of the lines of
every emitted cell — tick cells plus the finalize cell — equals the full
render of the final accumulated raw source at the controller's width. -/
theorem stream_no_loss (render : Renderer) (w : Option Nat) (ops : List Op)
    (hnr : ∀ op ∈ ops, op.isSetWidth = false)
    (hok : traceOk render (c1StepOk render) ops (StreamController.new w) = true)
    (hfin : c1FinalOk render (runAcc render ops (StreamController.new w)).1 = true)
    (hEmpty : render [] w = []) :
    (runAcc render ops (StreamController.new w)).2 ++
      cellLines ((runAcc render ops (StreamController.new w)).1.finalize render).2.1 =
      render (concatDeltas ops) w := by
  have hinv := c1_run render w hEmpty ops [] (StreamController.new w) hnr (c1Inv_new w) hok
  rw [List.nil_append] at hinv
  have hfin2 := c1_final render w _ _ hinv hfin hEmpty
  rw [hfin2]
  have hrb := rawbuf_runAcc render ops (StreamController.new w)
  simp only [show (StreamController.new w).raw_source = [] from rfl,
    show (StreamController.new w).state.collector.buffer = [] from rfl,
    List.nil_append] at hrb
  rw [hrb]

/-- The call trace used as the no-loss witness: a plain line, a pending
table header, then its delimiter row, with interleaved ticks. -/
def exC1ops : List Op :=
  [.push (str "hello\n"), .tick, .push (str "a | b\n"), .tick,
   .push (str "| --- | --- |\n"), .tickBatch 4]

/-- Witness for C1 at a concrete renderer, width and call trace. -/
theorem stream_no_loss_witness :
    (runAcc lineRenderer exC1ops (StreamController.new Option.none)).2 ++
      cellLines ((runAcc lineRenderer exC1ops
        (StreamController.new Option.none)).1.finalize lineRenderer).2.1 =
      lineRenderer (concatDeltas exC1ops) Option.none :=
  stream_no_loss lineRenderer Option.none exC1ops (by decide) (by decide) (by decide)
    (by decide)

end CodexStream
